import Mathlib

/-!
Verification of the `GEOMqm9` dataset adapter
(`src/datasets/geom_qm9_dataset.py`).

The Python class is shallowly embedded here:

* tensors are lists of rows over exact rationals (`Rat`); a `dtype` tag
  records `long` / `float` casts.  Float values themselves never decide any
  verified property; external float kernels (`torch.std`'s square root,
  `torch.norm`, `torch.rand`, `torch.normal`) are passed in as an `Ext`
  record of oracles, mirroring the spec's decision that the numeric
  libraries are external collaborators.
* fallible Python code (`KeyError`, `IndexError`, `TypeError`,
  `raise Exception`, shape errors from `torch.cat`) is embedded in
  `Except Err`.
* the mutable memo dictionary `self.pairwise` is threaded explicitly.
-/

namespace GEOMqm9

/-- Source line 166: `src = torch.repeat_interleave(torch.arange(n_atoms), n_atoms - 1)`.
`repeat_interleave` with a scalar repeat count repeats each element of
`arange n_atoms` that many times, consecutively. -/
def get_pairwise_src (n_atoms : Nat) : List Nat :=
  (List.range n_atoms).flatMap fun i => List.replicate (n_atoms - 1) i

/-- Source lines 167-168:
`dst = torch.cat([torch.cat([torch.arange(n_atoms)[:idx], torch.arange(n_atoms)[idx + 1:]]) for idx in range(n_atoms)])`. -/
def get_pairwise_dst (n_atoms : Nat) : List Nat :=
  (List.range n_atoms).flatMap fun idx =>
    (List.range n_atoms).take idx ++ (List.range n_atoms).drop (idx + 1)

/-- The value computed by the body of `get_pairwise` on a memo miss
(source lines 166-168). -/
def get_pairwise_fresh (n_atoms : Nat) : List Nat × List Nat :=
  (get_pairwise_src n_atoms, get_pairwise_dst n_atoms)

/-- The `self.pairwise` memo dictionary (source line 127), threaded explicitly. -/
abbrev Memo := List (Nat × (List Nat × List Nat))

/-- Source lines 162-170: `get_pairwise` with its memo dictionary made explicit.
Returns the `(src, dst)` pair together with the updated memo. -/
def get_pairwise (pairwise : Memo) (n_atoms : Nat) :
    (List Nat × List Nat) × Memo :=
  match pairwise.lookup n_atoms with
  | some p => (p, pairwise)
  | none =>
      (get_pairwise_fresh n_atoms, (n_atoms, get_pairwise_fresh n_atoms) :: pairwise)

/-- Every entry of the memo dictionary is the pair a fresh computation would
produce.  This holds for the empty dictionary installed at source line 127 and
is preserved by `get_pairwise`, the only code that writes to it. -/
def MemoWF (pairwise : Memo) : Prop :=
  ∀ n p, pairwise.lookup n = some p → p = get_pairwise_fresh n

/- ### Shared data model -/
/-- Python exceptions raised by the embedded code. -/
inductive Err where
  | keyError (k : String)
  | indexError
  | typeError (msg : String)
  | notSupported (msg : String)
  | valueError (msg : String)
  | attributeError (a : String)
  | zeroDivisionError
deriving Repr, DecidableEq

/-- Torch dtypes occurring in the adapter. -/
inductive DType where
  | tlong
  | tfloat
deriving Repr, DecidableEq

/-- A 2-D torch tensor: a dtype tag plus its rows.  Float entries are
modelled as exact rationals; no verified claim depends on float rounding. -/
structure Tensor where
  dtype : DType
  rows : List (List Rat)
deriving Repr, DecidableEq

/-- Python slicing `l[a:b]` with the non-negative bounds used in the source. -/
def pySlice {α : Type} (a b : Nat) (l : List α) : List α :=
  (l.take b).drop a

/-- A fallible Python lookup / subscript: `none` becomes the exception `e`. -/
def liftOpt {α : Type} (e : Err) : Option α → Except Err α
  | some a => .ok a
  | none => .error e

/- ### The raw GEOM records consumed by `process` -/
/-- The ensemble-level thermodynamic values of a raw pickle record
(`mol_dict`), present exactly when `'ensembleenergy' in mol_dict`
(the retention test of source line 357; GEOM records carry these keys
all-or-none). -/
structure EnsembleData where
  ensembleenergy : Rat
  ensembleentropy : Rat
  ensemblefreeenergy : Rat
  lowestenergy : Rat
  poplowestpct : Rat
  temperature : Rat
  uniqueconfs : Nat
deriving Repr, DecidableEq

/-- One raw molecule record: an entry of `summary_qm9.json` together with its
pickle file.  `atoms` holds the element symbols of `conformers[0].rd_mol`,
`bonds` the (begin, end) atom indices of its bonds, and `conformers` the
rdkit `GetConformer().GetPositions()` matrix of each conformer (rdkit, an
external collaborator, returns an `n x 3` matrix).  The per-atom and
per-bond numeric descriptors computed by the external `goli` chemistry
library are out of scope per the spec and not modelled. -/
structure RawMol where
  smiles : String
  has_pickle : Bool
  ensemble : Option EnsembleData
  atoms : List String
  bonds : List (Nat × Nat)
  conformers : List (List (List Rat))
deriving Repr, DecidableEq

/-- Source line 68: `self.atom_types`. -/
def atom_types : List (String × Nat) :=
  [("H", 0), ("C", 1), ("N", 2), ("O", 3), ("F", 4)]

/-- Source line 69: `self.symbols`. -/
def symbols : List (String × Nat) :=
  [("H", 1), ("C", 6), ("N", 7), ("O", 8), ("F", 9)]

/-- Retention test of source lines 354-357: the pickle file exists and
`'ensembleenergy' in mol_dict`. -/
def retainedMol (m : RawMol) : Bool :=
  m.has_pickle && m.ensemble.isSome

/-- Source lines 369-374: the directed edge pair `(start, end), (end, start)`
appended for each bond, in bond order (the columns of `edge_index` before
sorting). -/
def edgePairs (bonds : List (Nat × Nat)) : List (Nat × Nat) :=
  bonds.flatMap fun b => [(b.1, b.2), (b.2, b.1)]

/-- Source lines 377-378: the columns of `edge_index` are reordered by
`argsort` on the key `edge_index[0] * n_atoms + edge_index[1]`. -/
def sortEdges (n_atoms : Nat) (cols : List (Nat × Nat)) : List (Nat × Nat) :=
  cols.mergeSort fun p q => decide (p.1 * n_atoms + p.2 ≤ q.1 * n_atoms + q.2)

/-- The sorted per-molecule `edge_index` columns. -/
def edgeBlock (m : RawMol) : List (Nat × Nat) :=
  sortEdges m.atoms.length (edgePairs m.bonds)

/-- Source lines 390-393: keep the first at most 10 conformer position
matrices and pad with copies of the first one (`c0`) up to exactly 10. -/
def padConformers (c0 : List (List Rat)) (conformers : List (List (List Rat))) :
    List (List (List Rat)) :=
  (conformers.take 10) ++ List.replicate (10 - (conformers.take 10).length) c0

/-- `torch.cat(mats, dim=1)`: row-wise concatenation; torch requires equal
row counts and a non-empty list. -/
def catColsM : List (List (List Rat)) → Except Err (List (List Rat))
  | [] => .error (.valueError "torch.cat on an empty list")
  | [mat] => .ok mat
  | mat :: next :: rest => do
      let r ← catColsM (next :: rest)
      if mat.length = r.length then
        .ok (List.zipWith (fun a b => a ++ b) mat r)
      else
        .error (.valueError "torch.cat dim 1 size mismatch")

/-- Source lines 359 and 390-394: the coordinate block of one retained
molecule, `torch.cat(conformers, dim=1)` of the padded conformer list
(`conformers[0]` raises `IndexError` when the conformer list is empty). -/
def molCoords (m : RawMol) : Except Err (List (List Rat)) := do
  let c0 ← liftOpt .indexError m.conformers.head?
  catColsM (padConformers c0 m.conformers)

/-- `F.one_hot(c, num_classes=k)` (source line 402). -/
def oneHotRow (k : Nat) (c : Nat) : List Rat :=
  (List.range k).map fun j => if j = c then 1 else 0

/-- The accumulator threaded through the `process` loop
(source lines 335-351). -/
structure ProcAcc where
  atom_slices : List Nat
  edge_slices : List Nat
  atom_one_hot : List (List (List Rat))
  atomic_numbers_long : List Nat
  n_atoms_list : List Nat
  t_ensembleenergy : List Rat
  t_ensembleentropy : List Rat
  t_ensemblefreeenergy : List Rat
  t_lowestenergy : List Rat
  t_poplowestpct : List Rat
  t_temperature : List Rat
  t_uniqueconfs : List Nat
  edge_indices : List (List (Nat × Nat))
  coordinates : List (List (List Rat))
  smiles_list : List String
  total_atoms : Nat
  total_edges : Nat
  avg_degree : Rat
deriving Repr, DecidableEq

/-- Initial accumulator values, source lines 335-351. -/
def procAcc0 : ProcAcc where
  atom_slices := [0]
  edge_slices := [0]
  atom_one_hot := []
  atomic_numbers_long := []
  n_atoms_list := []
  t_ensembleenergy := []
  t_ensembleentropy := []
  t_ensemblefreeenergy := []
  t_lowestenergy := []
  t_poplowestpct := []
  t_temperature := []
  t_uniqueconfs := []
  edge_indices := []
  coordinates := []
  smiles_list := []
  total_atoms := 0
  total_edges := 0
  avg_degree := 0

/-- Loop body of `process` for one retained molecule (source lines 358-402).
`conformers[0]` may raise `IndexError`; unknown element symbols raise
`KeyError` in the `atom_types` / `symbols` lookups; `avg_degree` divides by
`n_atoms` (`ZeroDivisionError` for an atom-free molecule); the conformer
concatenation may raise a shape error. -/
def stepRetained (acc : ProcAcc) (m : RawMol) (e : EnsembleData) :
    Except Err ProcAcc := do
  let c0 ← liftOpt .indexError m.conformers.head?
  let n_atoms := m.atoms.length
  let type_idx ← m.atoms.mapM fun s => liftOpt (.keyError s) (atom_types.lookup s)
  let nums ← m.atoms.mapM fun s => liftOpt (.keyError s) (symbols.lookup s)
  let row := m.bonds.flatMap fun b => [b.1, b.2]
  if n_atoms = 0 then .error .zeroDivisionError else
  let block ← catColsM (padConformers c0 m.conformers)
  .ok { atom_slices := acc.atom_slices ++ [acc.total_atoms + n_atoms]
        edge_slices := acc.edge_slices ++ [acc.total_edges + row.length]
        atom_one_hot := acc.atom_one_hot ++ [type_idx.map (oneHotRow atom_types.length)]
        atomic_numbers_long := acc.atomic_numbers_long ++ nums
        n_atoms_list := acc.n_atoms_list ++ [n_atoms]
        t_ensembleenergy := acc.t_ensembleenergy ++ [e.ensembleenergy]
        t_ensembleentropy := acc.t_ensembleentropy ++ [e.ensembleentropy]
        t_ensemblefreeenergy := acc.t_ensemblefreeenergy ++ [e.ensemblefreeenergy]
        t_lowestenergy := acc.t_lowestenergy ++ [e.lowestenergy]
        t_poplowestpct := acc.t_poplowestpct ++ [e.poplowestpct]
        t_temperature := acc.t_temperature ++ [e.temperature]
        t_uniqueconfs := acc.t_uniqueconfs ++ [e.uniqueconfs]
        edge_indices := acc.edge_indices ++ [sortEdges n_atoms (edgePairs m.bonds)]
        coordinates := acc.coordinates ++ [block]
        smiles_list := acc.smiles_list ++ [m.smiles]
        total_atoms := acc.total_atoms + n_atoms
        total_edges := acc.total_edges + row.length
        avg_degree := acc.avg_degree + ((row.length : Rat) / 2) / (n_atoms : Rat) }

/-- One iteration of the `process` loop (source lines 352-357): molecules
without a pickle file or without `'ensembleenergy'` are skipped. -/
def procStep (acc : ProcAcc) (m : RawMol) : Except Err ProcAcc :=
  if m.has_pickle then
    match m.ensemble with
    | some e => stepRetained acc m e
    | none => .ok acc
  else .ok acc

/-- The whole `process` loop over the summary records
(source lines 352-402). -/
def process_core (mols : List RawMol) : Except Err ProcAcc :=
  mols.foldlM procStep procAcc0

/- ### The saved data dictionary -/
/-- A value stored in `data_dict`: a 2-D tensor, a 1-D long tensor, the
smiles string list, a Python float, the `2 x E` long `edge_indices` tensor
(kept as its list of columns), or the nested `targets` dict of tensors. -/
inductive DDVal where
  | tens (t : Tensor)
  | nats (l : List Nat)
  | strs (l : List String)
  | num (q : Rat)
  | edges (cols : List (Nat × Nat))
  | tdict (entries : List (String × Tensor))
deriving Repr, DecidableEq

/-- `data_dict` / `meta_dict`: a Python string-keyed dictionary. -/
abbrev DataDict := List (String × DDVal)

/-- Dictionary lookup, `d[k]`. -/
def lookupDD (d : DataDict) (k : String) : Option DDVal :=
  d.lookup k

/-- Source lines 408-409: the `targets` dict, each value a column tensor
`torch.tensor(value)[:, None]` (float for the thermodynamic values, long
for the integer `uniqueconfs`). -/
def targetsDict (acc : ProcAcc) : List (String × Tensor) :=
  [("ensembleenergy", ⟨.tfloat, acc.t_ensembleenergy.map fun q => [q]⟩),
   ("ensembleentropy", ⟨.tfloat, acc.t_ensembleentropy.map fun q => [q]⟩),
   ("ensemblefreeenergy", ⟨.tfloat, acc.t_ensemblefreeenergy.map fun q => [q]⟩),
   ("lowestenergy", ⟨.tfloat, acc.t_lowestenergy.map fun q => [q]⟩),
   ("poplowestpct", ⟨.tfloat, acc.t_poplowestpct.map fun q => [q]⟩),
   ("temperature", ⟨.tfloat, acc.t_temperature.map fun q => [q]⟩),
   ("uniqueconfs", ⟨.tlong, acc.t_uniqueconfs.map fun u => [(u : Rat)]⟩)]

/-- Source lines 403-422: the saved `data_dict`.  The goli-derived
descriptor keys (external chemistry computations, out of scope per the
spec) are not modelled; every structural key is.  `avg_degree` is the
accumulated sum divided by the number of retained molecules
(source line 421). -/
def mkDict (acc : ProcAcc) : DataDict :=
  (targetsDict acc).map (fun p => (p.1, DDVal.tens p.2)) ++
  [("smiles", .strs acc.smiles_list),
   ("n_atoms", .nats acc.n_atoms_list),
   ("atom_slices", .nats acc.atom_slices),
   ("edge_slices", .nats acc.edge_slices),
   ("atomic-number", .tens ⟨.tfloat, acc.atom_one_hot.flatten⟩),
   ("atomic_numbers_long", .nats acc.atomic_numbers_long),
   ("edge_indices", .edges acc.edge_indices.flatten),
   ("coordinates", .tens ⟨.tfloat, acc.coordinates.flatten⟩),
   ("targets", .tdict (targetsDict acc)),
   ("avg_degree", .num (acc.avg_degree / (acc.n_atoms_list.length : Rat)))]

/-- Source `process` (lines 328-425) minus the file I/O: parse every raw
record and build the saved `data_dict`.  When no molecule is retained,
`torch.cat` of the empty per-molecule tensor lists (and the division by
`len(n_atoms_list)`) raises. -/
def processDict (mols : List RawMol) : Except Err DataDict := do
  let acc ← process_core mols
  if acc.n_atoms_list.isEmpty then .error (.valueError "no molecule retained") else
  .ok (mkDict acc)

/-- A default molecule record (used only as `getD` fallback in statements). -/
def mol0 : RawMol where
  smiles := ""
  has_pickle := false
  ensemble := none
  atoms := []
  bonds := []
  conformers := []

/-- The running totals appended to a slice table by the `process` loop,
starting from total `t`. -/
def offs (f : RawMol → Nat) : Nat → List RawMol → List Nat
  | _, [] => []
  | t, m :: R => (t + f m) :: offs f (t + f m) R

/-- A concrete retained molecule: one carbon atom, no bonds, one conformer. -/
def m1 : RawMol where
  smiles := "C"
  has_pickle := true
  ensemble := some ⟨1, 1, 1, 1, 1, 1, 1⟩
  atoms := ["C"]
  bonds := []
  conformers := [[[0, 0, 0]]]

/-- The processed dictionary of the one-molecule dataset `[m1]`. -/
def ddC2 : DataDict :=
  match processDict [m1] with
  | .ok d => d
  | .error _ => []

/- ### The constructor -/
/-- External numeric kernels, passed in as oracles: the square root behind
`torch.std` / `torch.norm`, and the `torch.normal` / `torch.rand` draws.
The spec treats the numeric libraries as external collaborators and no
verified claim depends on their values. -/
structure Ext where
  sqrtQ : Rat → Rat
  normalQ : Nat → Rat
  randQ : Nat → Rat

/-- The constructor arguments of `GEOMqm9.__init__` (source lines 49-53)
used by the embedded code (`device` placement is the identity here). -/
structure Args where
  return_types : Option (List String)
  features : List String
  features3d : List String
  e_features : List String
  e_features3d : List String
  pos_dir : Bool
  target_tasks : Option (List String)
  normalize : Bool
  dist_embedding : Bool
  num_radial : Nat
  prefetch_graphs : Bool
  transform : Option (List (List Rat) → List (List Rat))

/-- The Python default arguments (source lines 49-53). -/
def defaultArgs : Args where
  return_types := none
  features := []
  features3d := []
  e_features := []
  e_features3d := []
  pos_dir := false
  target_tasks := none
  normalize := true
  dist_embedding := false
  num_radial := 6
  prefetch_graphs := true
  transform := none

/-- Source lines 54-63: `self.return_type_options`. -/
def return_type_options : List String :=
  ["mol_graph", "complete_graph", "mol_graph3d", "complete_graph3d", "san_graph",
   "mol_complete_graph",
   "se3Transformer_graph", "se3Transformer_graph3d",
   "pairwise_distances", "pairwise_distances_squared",
   "pairwise_indices",
   "raw_features", "coordinates",
   "dist_embedding",
   "mol_id", "targets",
   "one_hot_bond_types", "edge_indices", "smiles", "atomic_number_long",
   "conformations", "uniqueconfs"]

/-- Source lines 76-79: `return_types` defaults to
`['mol_graph', 'targets']`. -/
def resolveRTs (a : Args) : List String :=
  match a.return_types with
  | none => ["mol_graph", "targets"]
  | some l => l

/-- Source lines 80-81: every requested return type must appear in
`return_type_options`, else `Exception('return_type not supported: ...')`. -/
def validateRTs (rts : List String) : Except Err Unit :=
  rts.forM fun rt =>
    if rt ∈ return_type_options then pure ()
    else .error (.notSupported rt)

/-- The state of a constructed `GEOMqm9` object: the `self.*` attributes the
embedded methods read.  Attributes set only under some configurations
(`self.conformations`, `self.eig_vals`, `self.mol_graphs`, `self.targets`,
...) are `Option`s; reading `none` models Python's `TypeError` or
`AttributeError`.  dgl graphs are kept as their `(src, dst)` edge lists
(plus the explicit node count for the bonded graph). -/
structure GEOM where
  return_types : List String
  features_tensor : Option Tensor
  features3d_tensor : Option Tensor
  e_features_tensor : Option Tensor
  e_features3d_tensor : Option Tensor
  coordinates : Tensor
  conformations : Option Tensor
  edge_indices : List (Nat × Nat)
  meta_dict : DataDict
  eig_vals : Option Tensor
  eig_vecs : Option Tensor
  prefetch_graphs : Bool
  mol_graphs : Option (List ((List Nat × List Nat) × Nat))
  complete_graphs : Option (List (List Nat × List Nat))
  mol_complete_graphs : Option (List ((List Nat × List Nat) × (List Nat × List Nat)))
  pairwise : Memo
  avg_degree : Rat
  targets : Option Tensor
  targets_mean : Option (List Rat)
  targets_std : Option (List Rat)
  normalize : Bool
  pos_dir : Bool
  num_radial : Nat
  transform : Option (List (List Rat) → List (List Rat))

/-- `data_dict[k]`, raising `KeyError` when absent. -/
def ddGet (dd : DataDict) (k : String) : Except Err DDVal :=
  liftOpt (.keyError k) (lookupDD dd k)

/-- `data_dict[k]` where the following tensor operation needs a 2-D
tensor. -/
def ddTensor (dd : DataDict) (k : String) : Except Err Tensor := do
  match ← ddGet dd k with
  | .tens t => .ok t
  | _ => .error (.typeError k)

/-- `data_dict[k]` where a 1-D long tensor is expected. -/
def ddNats (dd : DataDict) (k : String) : Except Err (List Nat) := do
  match ← ddGet dd k with
  | .nats l => .ok l
  | _ => .error (.typeError k)

/-- `data_dict[k]` where the `2 x E` edge-index tensor is expected. -/
def ddEdges (dd : DataDict) (k : String) : Except Err (List (Nat × Nat)) := do
  match ← ddGet dd k with
  | .edges cols => .ok cols
  | _ => .error (.typeError k)

/-- `data_dict[k]` where a Python float is expected. -/
def ddNum (dd : DataDict) (k : String) : Except Err Rat := do
  match ← ddGet dd k with
  | .num q => .ok q
  | _ => .error (.typeError k)

/-- Whether an embedded Python computation raised. -/
def isErr {α : Type} : Except Err α → Bool
  | .error _ => true
  | .ok _ => false

/-- Python dict assignment `d[k] = v`. -/
def ddSet (dd : DataDict) (k : String) (v : DDVal) : DataDict :=
  (dd.filter fun p => p.1 != k) ++ [(k, v)]

/-- `torch.cat(ts, dim=-1)` for 2-D tensors: rows concatenate pointwise;
torch raises on an empty list or mismatched row counts.  The result dtype
follows the first tensor. -/
def catLast : List Tensor → Except Err Tensor
  | [] => .error (.valueError "torch.cat on an empty list")
  | [t] => .ok t
  | t :: next :: rest => do
      let r ← catLast (next :: rest)
      if t.rows.length = r.rows.length then
        .ok ⟨t.dtype, List.zipWith (fun a b => a ++ b) t.rows r.rows⟩
      else .error (.valueError "torch.cat dim -1 size mismatch")

/-- `.float()`. -/
def Tensor.toFloat (t : Tensor) : Tensor := ⟨.tfloat, t.rows⟩

/-- Source lines 90-95: conditionally add the `constant_ones` and
`standard_normal_noise` tensors to the loaded dict.  Note line 94 reads the
key `'atomic_number_long'` (no `s`) for the noise shape.  The 1-D float
tensors are modelled as `N x 1` columns; the 1-D/2-D distinction is a torch
shape detail no claim depends on. -/
def augmentDD (ext : Ext) (a : Args) (dd : DataDict) : Except Err DataDict := do
  let dd1 ←
    if (a.features ≠ [] ∧ "constant_ones" ∈ a.features) ∨
        (a.features3d ≠ [] ∧ "constant_ones" ∈ a.features3d) then do
      let l ← ddNats dd "atomic_numbers_long"
      pure (ddSet dd "constant_ones" (.tens ⟨.tfloat, l.map fun _ => [1]⟩))
    else pure dd
  if (a.features ≠ [] ∧ "standard_normal_noise" ∈ a.features) ∨
      (a.features3d ≠ [] ∧ "standard_normal_noise" ∈ a.features3d) then do
    let l ← ddNats dd1 "atomic_number_long"
    pure (ddSet dd1 "standard_normal_noise"
      (.tens ⟨.tfloat, (List.range l.length).map fun k => [ext.normalQ k]⟩))
  else pure dd1

/-- Source lines 97-98: `None if keys == [] else torch.cat([data_dict[k]
for k in keys], dim=-1)`. -/
def featTensor (dd : DataDict) (keys : List String) : Except Err (Option Tensor) :=
  if keys = [] then pure none
  else do
    let ts ← keys.mapM fun k => ddTensor dd k
    let t ← catLast ts
    pure (some t)

/-- Source lines 100-103: as `featTensor` but additionally `.float()`. -/
def featTensorF (dd : DataDict) (keys : List String) : Except Err (Option Tensor) := do
  match ← featTensor dd keys with
  | none => pure none
  | some t => pure (some t.toFloat)

/-- Source line 109: `self.meta_dict = {k: data_dict[k] for k in ('smiles',
'edge_slices', 'atom_slices', 'n_atoms', 'uniqueconfs')}`. -/
def mkMeta (dd : DataDict) : Except Err DataDict := do
  let v1 ← ddGet dd "smiles"
  let v2 ← ddGet dd "edge_slices"
  let v3 ← ddGet dd "atom_slices"
  let v4 ← ddGet dd "n_atoms"
  let v5 ← ddGet dd "uniqueconfs"
  pure [("smiles", v1), ("edge_slices", v2), ("atom_slices", v3),
        ("n_atoms", v4), ("uniqueconfs", v5)]

/-- Source lines 120-126: prefetch the bonded graph of each molecule,
`dgl.graph((edge_indices[0], edge_indices[1]), num_nodes=n_atoms)`. -/
def buildMolGraphs (esl nl : List Nat) (edge_cols : List (Nat × Nat)) :
    Except Err (List ((List Nat × List Nat) × Nat)) :=
  (List.range (esl.length - 1)).mapM fun idx => do
    let e_start ← liftOpt .indexError esl[idx]?
    let e_end ← liftOpt .indexError esl[idx + 1]?
    let cols := pySlice e_start e_end edge_cols
    let n ← liftOpt .indexError nl[idx]?
    pure ((cols.map Prod.fst, cols.map Prod.snd), n)

/-- Source lines 132-135: prefetch the complete graphs, threading the
`self.pairwise` memo. -/
def buildCompleteGraphs (nl : List Nat) (count : Nat) (memo0 : Memo) :
    Except Err (List (List Nat × List Nat) × Memo) :=
  (List.range count).foldlM
    (fun (p : List (List Nat × List Nat) × Memo) idx => do
      let n ← liftOpt .indexError nl[idx]?
      let r := get_pairwise p.2 n
      pure (p.1 ++ [r.1], r.2))
    ([], memo0)

/-- Source lines 140-144: prefetch the `mol_complete_graph` heterographs;
note the source feeds the pairwise `(src, dst)` to both the `bond` and the
`complete` relation. -/
def buildMolCompleteGraphs (nl : List Nat) (count : Nat) (memo0 : Memo) :
    Except Err (List ((List Nat × List Nat) × (List Nat × List Nat)) × Memo) :=
  (List.range count).foldlM
    (fun (p : List ((List Nat × List Nat) × (List Nat × List Nat)) × Memo) idx => do
      let n ← liftOpt .indexError nl[idx]?
      let r := get_pairwise p.2 n
      pure (p.1 ++ [(r.1, r.1)], r.2))
    ([], memo0)

/-- `target_tasks[0]` (source line 151): subscripting `None` raises
`TypeError`, subscripting an empty list raises `IndexError`. -/
def subscript0 {α : Type} : Option (List α) → Except Err α
  | none => .error (.typeError "NoneType is not subscriptable")
  | some l => liftOpt .indexError l.head?

/-- `torch.mean(dim=0)`: exact column means. -/
def colMean (rows : List (List Rat)) : List Rat :=
  rows.transpose.map fun c => c.sum / (c.length : Rat)

/-- `torch.std(dim=0)`: the external square root applied to the unbiased
column variance (`Rat` division by zero yields 0, standing in for the float
`nan`; no claim depends on these values). -/
def colStd (ext : Ext) (rows : List (List Rat)) : List Rat :=
  rows.transpose.map fun c =>
    ext.sqrtQ ((c.map fun x => (x - c.sum / (c.length : Rat)) ^ 2).sum /
      ((c.length : Rat) - 1))

/-- Source lines 150-157: select the targets tensor by `target_tasks[0]`,
compute mean / std, and normalise when `self.normalize`. -/
def targetsStep (ext : Ext) (a : Args) (rts : List String) (dd : DataDict) :
    Except Err (Option (Tensor × List Rat × List Rat)) :=
  if "targets" ∈ rts then do
    let key ← subscript0 a.target_tasks
    let t ← ddTensor dd key
    let mean := colMean t.rows
    let std := colStd ext t.rows
    let tN :=
      if a.normalize then
        Tensor.mk t.dtype (t.rows.map fun r =>
          (r.zip (mean.zip std)).map fun p => (p.1 - p.2.1) / p.2.2)
      else t
    pure (some (tN, mean, std))
  else pure none

/-- The attributes assembled by `__init__` lines 97-147 (everything between
the feature concatenation and the targets step). -/
structure PreState where
  features_tensor : Option Tensor
  features3d_tensor : Option Tensor
  e_features_tensor : Option Tensor
  e_features3d_tensor : Option Tensor
  coordinates : Tensor
  conformations : Option Tensor
  edge_indices : List (Nat × Nat)
  meta_dict : DataDict
  eig_vals : Option Tensor
  eig_vecs : Option Tensor
  mol_graphs : Option (List ((List Nat × List Nat) × Nat))
  complete_graphs : Option (List (List Nat × List Nat))
  mol_complete_graphs : Option (List ((List Nat × List Nat) × (List Nat × List Nat)))
  pairwise : Memo
  avg_degree : Rat

/-- `__init__` lines 111-113: load the spectral tensors when `san_graph`
is requested (the `eig_vals` / `eig_vecs` keys are read from the loaded
dict; `KeyError` propagates when absent). -/
def eigStep (rts : List String) (dd : DataDict) :
    Except Err (Option Tensor × Option Tensor) :=
  if "san_graph" ∈ rts then do
    let ev ← ddTensor dd "eig_vals"
    let evec ← ddTensor dd "eig_vecs"
    pure (some ev, some evec)
  else pure (none, none)

/-- `__init__` lines 115-126: the bonded-graph prefetch loop. -/
def molGraphsStep (a : Args) (rts : List String) (meta : DataDict)
    (eIdx : List (Nat × Nat)) :
    Except Err (Option (List ((List Nat × List Nat) × Nat))) :=
  if a.prefetch_graphs ∧ ("mol_graph" ∈ rts ∨ "mol_graph3d" ∈ rts ∨
      "se3Transformer_graph" ∈ rts ∨ "se3Transformer_graph3d" ∈ rts) then do
    let esl ← ddNats meta "edge_slices"
    let nl ← ddNats meta "n_atoms"
    let gs ← buildMolGraphs esl nl eIdx
    pure (some gs)
  else pure none

/-- `__init__` lines 127-135: `self.pairwise = {}` followed by the
complete-graph prefetch loop; returns the graphs and the memo. -/
def completeStep (a : Args) (rts : List String) (meta : DataDict) :
    Except Err (Option (List (List Nat × List Nat)) × Memo) :=
  if a.prefetch_graphs ∧ ("complete_graph" ∈ rts ∨ "complete_graph3d" ∈ rts ∨
      "san_graph" ∈ rts) then do
    let esl ← ddNats meta "edge_slices"
    let nl ← ddNats meta "n_atoms"
    let r ← buildCompleteGraphs nl (esl.length - 1) []
    pure (some r.1, r.2)
  else pure (none, ([] : Memo))

/-- `__init__` lines 136-144: the `mol_complete_graph` prefetch loop,
continuing with the memo produced by the complete-graph loop. -/
def molCompleteStep (a : Args) (rts : List String) (meta : DataDict)
    (memo : Memo) :
    Except Err (Option (List ((List Nat × List Nat) × (List Nat × List Nat))) × Memo) :=
  if a.prefetch_graphs ∧ ("mol_complete_graph" ∈ rts ∨
      "mol_complete_graph3d" ∈ rts) then do
    let esl ← ddNats meta "edge_slices"
    let nl ← ddNats meta "n_atoms"
    let r ← buildMolCompleteGraphs nl (esl.length - 1) memo
    pure (some r.1, r.2)
  else pure (none, memo)

/-- `__init__` lines 97-147. -/
def buildCore (a : Args) (rts : List String) (dd : DataDict) :
    Except Err PreState := do
  let ft ← featTensor dd a.features
  let ft3 ← featTensor dd a.features3d
  let eft ← featTensorF dd a.e_features
  let eft3 ← featTensorF dd a.e_features3d
  let coordT ← ddTensor dd "coordinates"
  let eIdx ← ddEdges dd "edge_indices"
  let meta ← mkMeta dd
  let eig ← eigStep rts dd
  let molGs ← molGraphsStep a rts meta eIdx
  let pairC ← completeStep a rts meta
  let pairMC ← molCompleteStep a rts meta pairC.2
  let avg ← ddNum dd "avg_degree"
  pure ⟨ft, ft3, eft, eft3,
    Tensor.mk coordT.dtype (coordT.rows.map fun r => r.take 3),
    (if "conformations" ∈ rts then some coordT else none),
    eIdx, meta, eig.1, eig.2, molGs, pairC.1, pairMC.1, pairMC.2, avg⟩

/-- `GEOMqm9.__init__` after the cache load (source lines 76-157). -/
def initFromDict (ext : Ext) (a : Args) (dd0 : DataDict) : Except Err GEOM := do
  let rts := resolveRTs a
  validateRTs rts
  let dd ← augmentDD ext a dd0
  let p ← buildCore a rts dd
  let tg ← targetsStep ext a rts dd
  pure { return_types := rts
         features_tensor := p.features_tensor
         features3d_tensor := p.features3d_tensor
         e_features_tensor := p.e_features_tensor
         e_features3d_tensor := p.e_features3d_tensor
         coordinates := p.coordinates
         conformations := p.conformations
         edge_indices := p.edge_indices
         meta_dict := p.meta_dict
         eig_vals := p.eig_vals
         eig_vecs := p.eig_vecs
         prefetch_graphs := a.prefetch_graphs
         mol_graphs := p.mol_graphs
         complete_graphs := p.complete_graphs
         mol_complete_graphs := p.mol_complete_graphs
         pairwise := p.pairwise
         avg_degree := p.avg_degree
         targets := tg.map fun x => x.1
         targets_mean := tg.map fun x => x.2.1
         targets_std := tg.map fun x => x.2.2
         normalize := a.normalize
         pos_dir := a.pos_dir
         num_radial := a.num_radial
         transform := a.transform }

/- ### The file system side of the constructor (cache handling) -/
/-- The file system visible to the adapter: the raw GEOM records and the
processed cache file's contents, when the file exists. -/
structure FS where
  raw : List RawMol
  processedFile : Option DataDict

/-- `process` including its `torch.save` (source lines 328-425). -/
def processSave (fs : FS) : Except Err FS := do
  let dd ← processDict fs.raw
  pure { raw := fs.raw, processedFile := some dd }

/-- Source lines 84-88: run `process()` iff the cache file is missing, then
`torch.load` the cache.  Returns the resulting file system, the loaded
dict, and whether `process()` ran. -/
def loadPhase (fs : FS) : Except Err (FS × DataDict × Bool) :=
  match fs.processedFile with
  | some dd => .ok (fs, dd, false)
  | none => do
      let fs' ← processSave fs
      let dd ← liftOpt (.keyError "processed file") fs'.processedFile
      pure (fs', dd, true)

/-- The whole constructor: validation (source lines 76-81), cache handling
(84-88), then the in-memory initialisation (90-157). -/
def constructGEOM (ext : Ext) (a : Args) (fs : FS) :
    Except Err (FS × GEOM × Bool) := do
  validateRTs (resolveRTs a)
  let l ← loadPhase fs
  let g ← initFromDict ext a l.2.1
  pure (l.1, g, l.2.2)

/- ### `data_by_type` and `__getitem__` -/
/-- A node/edge data entry (`ndata` / `edata` value): 2-D, or 3-D for
`[..., None]` and `torch.stack(..., dim=-1)`. -/
inductive TVal where
  | t2 (t : Tensor)
  | t3 (a : List (List (List Rat)))
deriving Repr, DecidableEq

/-- A value returned by `data_by_type`. -/
inductive View where
  | vtensor (t : Tensor)
  | vrow (r : List Rat)
  | vstr (s : String)
  | vedges (cols : List (Nat × Nat))
  | vgraph (src dst : List Nat) (numNodes : Nat)
      (ndata : List (String × TVal)) (edata : List (String × TVal))
  | vhetero (bond : List Nat × List Nat) (complete : List Nat × List Nat)
      (ndata : List (String × TVal)) (bondEdata : List (String × TVal))
deriving Repr, DecidableEq

/-- Tensor row slice `t[a : b]`. -/
def sliceT (t : Tensor) (a b : Nat) : Tensor := ⟨t.dtype, pySlice a b t.rows⟩

/-- dgl's inferred node count: max endpoint + 1, or 0 with no edges. -/
def inferNumNodes (src dst : List Nat) : Nat :=
  match src, dst with
  | [], [] => 0
  | _, _ => ((src ++ dst).foldl max 0) + 1

/-- Subscripting an optional tensor attribute (`self.features_tensor[...]`
etc.): `None` raises `TypeError`. -/
def reqT (o : Option Tensor) : Except Err Tensor :=
  liftOpt (.typeError "NoneType is not subscriptable") o

/-- `get_graph` (source lines 193-199). -/
def get_graph (g : GEOM) (idx e_start e_end n_atoms : Nat) :
    Except Err ((List Nat × List Nat) × Nat) :=
  if g.prefetch_graphs then do
    let gs ← liftOpt (.attributeError "mol_graphs") g.mol_graphs
    liftOpt .indexError gs[idx]?
  else
    let cols := pySlice e_start e_end g.edge_indices
    .ok ((cols.map Prod.fst, cols.map Prod.snd), n_atoms)

/-- `get_complete_graph` (source lines 201-207).  In the non-prefetch path
the source also writes the memo; only the returned value is modelled (the
C6 theorem shows the value agrees with the fresh computation on every
reachable memo). -/
def get_complete_graph (g : GEOM) (idx n_atoms : Nat) :
    Except Err (List Nat × List Nat) :=
  if g.prefetch_graphs then do
    let gs ← liftOpt (.attributeError "complete_graphs") g.complete_graphs
    liftOpt .indexError gs[idx]?
  else
    .ok (get_pairwise g.pairwise n_atoms).1

/-- `get_mol_complete_graph` (source lines 209-217). -/
def get_mol_complete_graph (g : GEOM) (idx e_start e_end n_atoms : Nat) :
    Except Err ((List Nat × List Nat) × (List Nat × List Nat)) :=
  if g.prefetch_graphs then do
    let gs ← liftOpt (.attributeError "mol_complete_graphs") g.mol_complete_graphs
    liftOpt .indexError gs[idx]?
  else
    let cols := pySlice e_start e_end g.edge_indices
    .ok ((cols.map Prod.fst, cols.map Prod.snd),
      (get_pairwise g.pairwise n_atoms).1)

/-- `torch.norm(x[src] - x[dst], p=2, dim=-1).unsqueeze(-1)`: the external
square root applied to the exact squared distances. -/
def distRows (ext : Ext) (xs : List (List Rat)) (src dst : List Nat) :
    List (List Rat) :=
  (src.zip dst).map fun p =>
    [ext.sqrtQ ((((xs.getD p.1 []).zip (xs.getD p.2 [])).map
        fun q => (q.1 - q.2) ^ 2).sum)]

/-- Width `t.shape[1]` read off the first row. -/
def widthOf (t : Tensor) : Nat := (t.rows.headD []).length

/-- Source lines 243-249: scatter the bond feature rows into an
`n_atoms * n_atoms` zero matrix at the flattened bond indices (the last
assignment wins on duplicates). -/
def scatterBond (size width : Nat) (bond_idx : List Nat)
    (bond_feats : List (List Rat)) : List (List Rat) :=
  (List.range size).map fun r =>
    match ((bond_idx.zip bond_feats).filter fun p => p.1 == r).getLast? with
    | some p => p.2
    | none => List.replicate width 0

/-- `data_by_type` (source lines 219-326); `.to(self.device)` moves are the
identity here.  The branches appear in source order; the second
`conformations` branch (line 315) is shadowed by the first (line 220). -/
def data_by_type (ext : Ext) (g : GEOM) (idx : Nat) (return_type : String)
    (e_start e_end start n_atoms : Nat) : Except Err View :=
  if return_type = "conformations" then do
    let c ← reqT g.conformations
    pure (.vtensor (sliceT c start (start + n_atoms)))
  else if return_type = "mol_graph" then do
    let gr ← get_graph g idx e_start e_end n_atoms
    let f ← reqT g.features_tensor
    let ndata := [("f", TVal.t2 (sliceT f start (start + n_atoms))),
                  ("x", TVal.t2 (sliceT g.coordinates start (start + n_atoms)))]
    let edata := match g.e_features_tensor with
      | some w => [("w", TVal.t2 (sliceT w e_start e_end))]
      | none => []
    pure (.vgraph gr.1.1 gr.1.2 gr.2 ndata edata)
  else if return_type = "mol_graph3d" then do
    let gr ← get_graph g idx e_start e_end n_atoms
    let f ← reqT g.features3d_tensor
    let ndata := [("f", TVal.t2 (sliceT f start (start + n_atoms))),
                  ("x", TVal.t2 (sliceT g.coordinates start (start + n_atoms)))]
    let edata := match g.e_features3d_tensor with
      | some w => [("w", TVal.t2 (sliceT w e_start e_end))]
      | none => []
    pure (.vgraph gr.1.1 gr.1.2 gr.2 ndata edata)
  else if return_type = "complete_graph" then do
    let gr ← get_complete_graph g idx n_atoms
    let f ← reqT g.features_tensor
    let xs := pySlice start (start + n_atoms) g.coordinates.rows
    let ndata := [("f", TVal.t2 (sliceT f start (start + n_atoms))),
                  ("x", TVal.t2 ⟨g.coordinates.dtype, xs⟩)]
    let base := [("d", TVal.t2 ⟨.tfloat, distRows ext xs gr.1 gr.2⟩)]
    let edata ← match g.e_features_tensor with
      | some ef => do
          let bf := sliceT ef e_start e_end
          let cols := pySlice e_start e_end g.edge_indices
          let bond_idx := cols.map fun p => p.1 * n_atoms + p.2
          let sc := scatterBond (n_atoms * n_atoms) (widthOf bf) bond_idx bf.rows
          let pw := (get_pairwise g.pairwise n_atoms).1
          pure (base ++ [("w", TVal.t2 ⟨.tfloat,
            (pw.1.zip pw.2).map fun p =>
              sc.getD (p.1 * n_atoms + p.2) (List.replicate (widthOf bf) 0)⟩)])
      | none => pure base
    pure (.vgraph gr.1 gr.2 (inferNumNodes gr.1 gr.2) ndata edata)
  else if return_type = "complete_graph3d" then do
    let gr ← get_complete_graph g idx n_atoms
    let f ← reqT g.features3d_tensor
    let xs := pySlice start (start + n_atoms) g.coordinates.rows
    let ndata := [("f", TVal.t2 (sliceT f start (start + n_atoms))),
                  ("x", TVal.t2 ⟨g.coordinates.dtype, xs⟩)]
    let base := [("d", TVal.t2 ⟨.tfloat, distRows ext xs gr.1 gr.2⟩)]
    let edata ← match g.e_features3d_tensor with
      | some ef => do
          let bf := sliceT ef e_start e_end
          let cols := pySlice e_start e_end g.edge_indices
          let bond_idx := cols.map fun p => p.1 * n_atoms + p.2
          let sc := scatterBond (n_atoms * n_atoms) (widthOf bf) bond_idx bf.rows
          let pw := (get_pairwise g.pairwise n_atoms).1
          pure (base ++ [("w", TVal.t2 ⟨.tfloat,
            (pw.1.zip pw.2).map fun p =>
              sc.getD (p.1 * n_atoms + p.2) (List.replicate (widthOf bf) 0)⟩)])
      | none => pure base
    pure (.vgraph gr.1 gr.2 (inferNumNodes gr.1 gr.2) ndata edata)
  else if return_type = "mol_complete_graph" then do
    let gr ← get_mol_complete_graph g idx e_start e_end n_atoms
    let f ← reqT g.features_tensor
    let ndata := [("f", TVal.t2 (sliceT f start (start + n_atoms))),
                  ("x", TVal.t2 (sliceT g.coordinates start (start + n_atoms)))]
    let bondEdata := match g.e_features_tensor with
      | some w => [("w", TVal.t2 (sliceT w e_start e_end))]
      | none => []
    pure (.vhetero gr.1 gr.2 ndata bondEdata)
  else if return_type = "san_graph" then do
    let gr ← get_complete_graph g idx n_atoms
    let f ← reqT g.features_tensor
    let evT ← liftOpt (.attributeError "eig_vals") g.eig_vals
    let ev ← liftOpt .indexError evT.rows[idx]?
    let signs := (List.range ev.length).map fun k =>
      if ext.randQ k ≥ 1 / 2 then (1 : Rat) else -1
    let evecT ← liftOpt (.attributeError "eig_vecs") g.eig_vecs
    let evecs := (pySlice start (start + n_atoms) evecT.rows).map fun r =>
      List.zipWith (fun x s => x * s) r signs
    let evals := List.replicate n_atoms ev
    let ndata := [("f", TVal.t2 (sliceT f start (start + n_atoms))),
                  ("x", TVal.t2 (sliceT g.coordinates start (start + n_atoms))),
                  ("pos_enc", TVal.t3 ((evals.zip evecs).map fun p =>
                    List.zipWith (fun a b => [a, b]) p.1 p.2))]
    let edata ← match g.e_features_tensor with
      | some ef => do
          let efeats := sliceT ef e_start e_end
          let cols := pySlice e_start e_end g.edge_indices
          let wRows := (gr.1.zip gr.2).map fun p =>
            match ((cols.zip efeats.rows).filter fun q => q.1 == p).getLast? with
            | some q => q.2
            | none => List.replicate (widthOf efeats) 0
          let realRows := (gr.1.zip gr.2).map fun p =>
            if p ∈ cols then ([1] : List Rat) else [0]
          pure [("w", TVal.t2 ⟨.tfloat, wRows⟩),
                ("real", TVal.t2 ⟨.tlong, realRows⟩)]
      | none => pure ([] : List (String × TVal))
    pure (.vgraph gr.1 gr.2 (inferNumNodes gr.1 gr.2) ndata edata)
  else if return_type = "se3Transformer_graph" ∨
      return_type = "se3Transformer_graph3d" then do
    let gr ← get_graph g idx e_start e_end n_atoms
    let x0 := pySlice start (start + n_atoms) g.coordinates.rows
    let x := match g.transform with
      | some f => f x0
      | none => x0
    let fT ← if return_type = "se3Transformer_graph3d" then reqT g.features3d_tensor
      else reqT g.features_tensor
    let fRows := pySlice start (start + n_atoms) fT.rows
    let ndata := [("x", TVal.t2 ⟨g.coordinates.dtype, x⟩),
                  ("f", TVal.t3 (fRows.map fun r => r.map fun q => [q]))]
    let base := [("d", TVal.t2 ⟨.tfloat, distRows ext x gr.1.1 gr.1.2⟩)]
    let edata :=
      if g.e_features_tensor.isSome ∧ return_type = "se3Transformer_graph" then
        base ++ [("w", TVal.t2
          (sliceT (g.e_features_tensor.getD ⟨.tfloat, []⟩) e_start e_end))]
      else if g.e_features3d_tensor.isSome ∧
          return_type = "se3Transformer_graph3d" then
        base ++ [("w", TVal.t2
          (sliceT (g.e_features3d_tensor.getD ⟨.tfloat, []⟩) e_start e_end))]
      else base
    pure (.vgraph gr.1.1 gr.1.2 gr.2 ndata edata)
  else if return_type = "raw_features" then do
    let f ← reqT g.features_tensor
    pure (.vtensor (sliceT f start (start + n_atoms)))
  else if return_type = "coordinates" then
    pure (.vtensor (sliceT g.coordinates start (start + n_atoms)))
  else if return_type = "uniqueconfs" then do
    let v ← ddGet g.meta_dict "uniqueconfs"
    match v with
    | .tens t => do
        let r ← liftOpt .indexError t.rows[idx]?
        pure (.vrow r)
    | _ => .error (.typeError "uniqueconfs")
  else if return_type = "targets" then do
    let t ← liftOpt (.attributeError "targets") g.targets
    let r ← liftOpt .indexError t.rows[idx]?
    pure (.vrow r)
  else if return_type = "edge_indices" then do
    let v ← ddGet g.meta_dict "edge_indices"
    match v with
    | .edges cols => pure (.vedges (pySlice e_start e_end cols))
    | _ => .error (.typeError "edge_indices")
  else if return_type = "smiles" then do
    let v ← ddGet g.meta_dict "smiles"
    match v with
    | .strs l => do
        let s ← liftOpt .indexError l[idx]?
        pure (.vstr s)
    | _ => .error (.typeError "smiles")
  else .error (.notSupported return_type)

/-- The accumulation loop of `__getitem__` (source lines 183-191): one view
per configured return type, in order. -/
def viewsFor (ext : Ext) (g : GEOM) (idx e_start e_end start n_atoms : Nat) :
    List String → Except Err (List View)
  | [] => .ok []
  | rt :: rts => do
      let v ← data_by_type ext g idx rt e_start e_end start n_atoms
      let vs ← viewsFor ext g idx e_start e_end start n_atoms rts
      pure (v :: vs)

/-- `__getitem__` (source lines 172-191). -/
def getitem (ext : Ext) (g : GEOM) (idx : Nat) : Except Err (List View) := do
  let esl ← ddNats g.meta_dict "edge_slices"
  let e_start ← liftOpt .indexError esl[idx]?
  let e_end ← liftOpt .indexError esl[idx + 1]?
  let asl ← ddNats g.meta_dict "atom_slices"
  let start ← liftOpt .indexError asl[idx]?
  let nl ← ddNats g.meta_dict "n_atoms"
  let n_atoms ← liftOpt .indexError nl[idx]?
  viewsFor ext g idx e_start e_end start n_atoms g.return_types

/-- Raw records whose cache does not exist yet. -/
def fs3 : FS where
  raw := [m1]
  processedFile := none

/-- The outcome of the first construction's load phase on `fs3`. -/
def loadC3 : FS × DataDict × Bool :=
  match loadPhase fs3 with
  | .ok r => r
  | .error _ => (fs3, [], false)

/- ### Claim C9: accepted but unhandled return types -/
/-- The return types accepted by the constructor's validation but not
handled by any `data_by_type` branch. -/
def unhandled_types : List String :=
  ["mol_id", "pairwise_distances", "pairwise_distances_squared",
   "pairwise_indices", "dist_embedding", "one_hot_bond_types",
   "atomic_number_long"]

/-- Dummy external oracles (their values never matter for the claims). -/
def ext0 : Ext where
  sqrtQ := fun _ => 0
  normalQ := fun _ => 0
  randQ := fun _ => 0

/-- A small constructed state: one molecule, one atom, no edges. -/
def g4 : GEOM where
  return_types := ["smiles", "coordinates"]
  features_tensor := none
  features3d_tensor := none
  e_features_tensor := none
  e_features3d_tensor := none
  coordinates := ⟨.tfloat, [[1, 2, 3]]⟩
  conformations := none
  edge_indices := []
  meta_dict := [("smiles", .strs ["C"]), ("edge_slices", .nats [0, 0]),
    ("atom_slices", .nats [0, 1]), ("n_atoms", .nats [1]),
    ("uniqueconfs", .tens ⟨.tlong, [[1]]⟩)]
  eig_vals := none
  eig_vecs := none
  prefetch_graphs := false
  mol_graphs := none
  complete_graphs := none
  mol_complete_graphs := none
  pairwise := []
  avg_degree := 0
  targets := none
  targets_mean := none
  targets_std := none
  normalize := true
  pos_dir := false
  num_radial := 6
  transform := none

/- ### Claim C5: raw_features / coordinates slicing -/
/-- The slice table of a block layout: the running totals of the block
heights starting at `t` (the shape `process` gives `atom_slices`). -/
def sliceTable : Nat → List Nat → List Nat
  | t, [] => [t]
  | t, n :: ns => t :: sliceTable (t + n) ns

/-- The coordinate block of the one-molecule dataset `[m1]`. -/
def block10 : List (List Rat) :=
  match molCoords m1 with
  | .ok b => b
  | .error _ => []

/- ### Remaining concrete witnesses -/
/-- A constructed state with two molecules laid out in flat blocks:
heights 1 and 2, feature width 1, coordinate width 3. -/
def g5 : GEOM where
  return_types := ["raw_features", "coordinates"]
  features_tensor := some ⟨.tfloat, [[1], [2], [3]]⟩
  features3d_tensor := none
  e_features_tensor := none
  e_features3d_tensor := none
  coordinates := ⟨.tfloat, [[9, 9, 9], [8, 8, 8], [7, 7, 7]]⟩
  conformations := none
  edge_indices := []
  meta_dict := [("smiles", .strs ["C", "N"]), ("edge_slices", .nats [0, 0, 0]),
    ("atom_slices", .nats [0, 1, 3]), ("n_atoms", .nats [1, 2]),
    ("uniqueconfs", .tens ⟨.tlong, [[1], [1]]⟩)]
  eig_vals := none
  eig_vecs := none
  prefetch_graphs := false
  mol_graphs := none
  complete_graphs := none
  mol_complete_graphs := none
  pairwise := []
  avg_degree := 0
  targets := none
  targets_mean := none
  targets_std := none
  normalize := true
  pos_dir := false
  num_radial := 6
  transform := none

/-- A loaded dict with one tensor feature key plus all structural keys. -/
def dd7 : DataDict :=
  [("feat", .tens ⟨.tfloat, [[1], [2]]⟩),
   ("coordinates", .tens ⟨.tfloat, [[1, 2, 3, 4], [5, 6, 7, 8]]⟩),
   ("edge_indices", .edges []),
   ("smiles", .strs ["C"]),
   ("edge_slices", .nats [0, 0]),
   ("atom_slices", .nats [0, 2]),
   ("n_atoms", .nats [2]),
   ("uniqueconfs", .tens ⟨.tlong, [[1]]⟩),
   ("avg_degree", .num 0)]

/-- Constructor arguments requesting one feature key and one edge-feature
key, without graph prefetching or targets. -/
def args7 : Args :=
  { defaultArgs with
    return_types := some ["raw_features"]
    features := ["feat", "coordinates"]
    e_features := ["feat"]
    prefetch_graphs := false }

/-- The object constructed from `dd7` with `args7`. -/
def g7 : GEOM :=
  match initFromDict ext0 args7 dd7 with
  | .ok g => g
  | .error _ => g4

/-- Constructor arguments requesting the accepted-but-broken
`edge_indices` return type. -/
def args9 : Args :=
  { defaultArgs with
    return_types := some ["edge_indices"]
    prefetch_graphs := false }

/-- The object constructed from `dd7` with `args9`. -/
def g9 : GEOM :=
  match initFromDict ext0 args9 dd7 with
  | .ok g => g
  | .error _ => g4

/- ### List helper lemmas for the pairwise index enumeration -/
theorem drop_range_eq (i n : Nat) :
    (List.range n).drop i = List.range' i (n - i) := by
  rcases le_or_lt i n with h | h
  · have happ := List.range'_append 0 i (n - i) 1
    simp only [one_mul, zero_add] at happ
    have hn : n - i + i = n := Nat.sub_add_cancel h
    rw [hn] at happ
    rw [List.range_eq_range', ← happ, List.drop_left']
    simp [List.length_range']
  · have h1 : (List.range n).drop i = [] := by
      apply List.drop_eq_nil_of_le
      simpa using Nat.le_of_lt h
    have h2 : n - i = 0 := Nat.sub_eq_zero_of_le (Nat.le_of_lt h)
    simp [h1, h2]

theorem mem_dst_block {n i j : Nat} (hi : i < n) :
    j ∈ (List.range n).take i ++ (List.range n).drop (i + 1) ↔ j < n ∧ j ≠ i := by
  rw [List.mem_append, List.take_range, drop_range_eq, List.mem_range', List.mem_range]
  constructor
  · rintro (h | ⟨t, ht, rfl⟩) <;> omega
  · rintro ⟨hj, hne⟩
    rcases lt_or_gt_of_ne hne with h | h
    · left; omega
    · right; exact ⟨j - (i + 1), by omega, by omega⟩

theorem length_dst_block {n i : Nat} (hi : i < n) :
    ((List.range n).take i ++ (List.range n).drop (i + 1)).length = n - 1 := by
  rw [List.length_append, List.length_take, List.length_range, List.length_drop,
    List.length_range]
  omega

theorem nodup_dst_block (n i : Nat) :
    ((List.range n).take i ++ (List.range n).drop (i + 1)).Nodup := by
  rw [List.take_range, drop_range_eq]
  refine List.Nodup.append (List.nodup_range _) (List.nodup_range' _ _) ?_
  intro a ha hb
  rw [List.mem_range] at ha
  rw [List.mem_range'] at hb
  omega

theorem dst_block_eq_filter {n i : Nat} (hi : i < n) :
    (List.range n).take i ++ (List.range n).drop (i + 1) =
      (List.range n).filter fun j => j != i := by
  have hsplit : List.range n = List.range' 0 i ++ List.range' i (n - i) := by
    have happ := List.range'_append 0 i (n - i) 1
    simp only [one_mul, zero_add] at happ
    rw [Nat.sub_add_cancel (Nat.le_of_lt hi)] at happ
    rw [List.range_eq_range', ← happ]
  have hstep : List.range' i (n - i) = i :: List.range' (i + 1) (n - i - 1) := by
    conv_lhs => rw [show n - i = (n - i - 1) + 1 from by omega]
    rw [List.range'_succ]
  have h1 : (List.range' 0 i).filter (fun j => j != i) = List.range' 0 i := by
    rw [List.filter_eq_self]
    intro a ha
    rw [List.mem_range'] at ha
    simp only [bne_iff_ne, ne_eq]
    omega
  have h2 : (List.range' (i + 1) (n - i - 1)).filter (fun j => j != i) =
      List.range' (i + 1) (n - i - 1) := by
    rw [List.filter_eq_self]
    intro a ha
    rw [List.mem_range'] at ha
    simp only [bne_iff_ne, ne_eq]
    omega
  rw [List.take_range, drop_range_eq, Nat.min_eq_left (Nat.le_of_lt hi)]
  conv_rhs => rw [hsplit, hstep]
  rw [List.filter_append, List.filter_cons]
  simp only [bne_self_eq_false, Bool.false_eq_true, if_false, h1, h2]
  rw [List.range_eq_range', Nat.sub_sub]

theorem flatMap_zip_flatMap {α β γ : Type} :
    ∀ (l : List α) (f : α → List β) (g : α → List γ),
      (∀ a ∈ l, (f a).length = (g a).length) →
      (l.flatMap f).zip (l.flatMap g) = l.flatMap fun a => (f a).zip (g a)
  | [], _, _, _ => rfl
  | a :: l, f, g, h => by
    simp only [List.flatMap_cons]
    rw [List.zip_append (h a (List.mem_cons_self a l)),
      flatMap_zip_flatMap l f g fun b hb => h b (List.mem_cons_of_mem a hb)]

theorem replicate_zip {α β : Type} (i : α) :
    ∀ l : List β, (List.replicate l.length i).zip l = l.map fun b => (i, b)
  | [] => rfl
  | b :: l => by
    simp only [List.length_cons, List.replicate_succ, List.zip_cons_cons,
      List.map_cons, replicate_zip i l]

theorem flatMap_congr {α β : Type} {l : List α} {f g : α → List β}
    (h : ∀ a ∈ l, f a = g a) : l.flatMap f = l.flatMap g := by
  induction l with
  | nil => rfl
  | cons a l ih =>
    simp only [List.flatMap_cons]
    rw [h a (List.mem_cons_self a l), ih fun b hb => h b (List.mem_cons_of_mem a hb)]

/-- The zipped `(src, dst)` sequences, grouped by source node. -/
theorem zip_src_dst (n : Nat) :
    (get_pairwise_src n).zip (get_pairwise_dst n) =
      (List.range n).flatMap fun i =>
        ((List.range n).take i ++ (List.range n).drop (i + 1)).map fun j => (i, j) := by
  rw [get_pairwise_src, get_pairwise_dst, flatMap_zip_flatMap]
  · apply flatMap_congr
    intro i hi
    rw [List.mem_range] at hi
    have hlen : n - 1 = ((List.range n).take i ++ (List.range n).drop (i + 1)).length := by
      rw [length_dst_block hi]
    rw [hlen, replicate_zip]
  · intro i hi
    rw [List.mem_range] at hi
    rw [List.length_replicate, length_dst_block hi]

theorem sorted_flatMap_replicate (k : Nat) :
    ∀ n : Nat, ((List.range n).flatMap fun i => List.replicate k i).Sorted (· ≤ ·)
  | 0 => by simp [List.Sorted]
  | n + 1 => by
    rw [List.range_succ, List.flatMap_append]
    rw [List.Sorted, List.pairwise_append]
    refine ⟨sorted_flatMap_replicate k n, ?_, ?_⟩
    · simp only [List.flatMap_cons, List.flatMap_nil, List.append_nil]
      rw [List.pairwise_replicate]
      right; exact le_refl n
    · intro a ha b hb
      rw [List.mem_flatMap] at ha
      obtain ⟨i, hi, hai⟩ := ha
      rw [List.mem_range] at hi
      rw [List.mem_replicate] at hai
      simp only [List.flatMap_cons, List.flatMap_nil, List.append_nil,
        List.mem_replicate] at hb
      omega

theorem count_flatMap_replicate (k : Nat) (x : Nat) :
    ∀ n : Nat, ((List.range n).flatMap fun i => List.replicate k i).count x =
      if x < n then k else 0
  | 0 => by simp
  | n + 1 => by
    rw [List.range_succ, List.flatMap_append, List.count_append,
      count_flatMap_replicate k x n]
    simp only [List.flatMap_cons, List.flatMap_nil, List.append_nil,
      List.count_replicate]
    rcases Nat.lt_trichotomy x n with h | h | h
    · have h1 : x < n + 1 := Nat.lt_succ_of_lt h
      have h2 : (n == x) = false := by
        rw [beq_eq_false_iff_ne]
        omega
      rw [if_pos h, if_pos h1, h2]
      simp
    · subst h
      simp
    · have h1 : ¬ x < n := by omega
      have h2 : ¬ x < n + 1 := by omega
      have h3 : (n == x) = false := by
        rw [beq_eq_false_iff_ne]
        omega
      rw [if_neg h1, if_neg h2, h3]
      simp

/-- Claim C1.  For every `n_atoms`, `get_pairwise`'s freshly computed `src`
and `dst` sequences each have length `n_atoms * (n_atoms - 1)`; zipped
together they enumerate, without repetition, exactly the ordered pairs
`(i, j)` with `i, j < n_atoms` and `i ≠ j`; `src` lists each `i < n_atoms`
exactly `n_atoms - 1` times in non-decreasing order, and `dst` lists, for
each `i` in increasing order of `i`, all `j ≠ i` in increasing order
(the block for `i` is exactly `range n_atoms` with `i` filtered out).
This covers in particular every `n_atoms ≥ 1` as the claim states. -/
theorem C1_get_pairwise_complete_digraph (n : Nat) :
    (get_pairwise_src n).length = n * (n - 1) ∧
    (get_pairwise_dst n).length = n * (n - 1) ∧
    ((get_pairwise_src n).zip (get_pairwise_dst n)).Nodup ∧
    (∀ p : Nat × Nat,
        p ∈ (get_pairwise_src n).zip (get_pairwise_dst n) ↔
          p.1 < n ∧ p.2 < n ∧ p.1 ≠ p.2) ∧
    (∀ i, (get_pairwise_src n).count i = if i < n then n - 1 else 0) ∧
    (get_pairwise_src n).Sorted (· ≤ ·) ∧
    get_pairwise_dst n =
      (List.range n).flatMap fun i => (List.range n).filter fun j => j != i := by
  refine ⟨?_, ?_, ?_, ?_, ?_, ?_, ?_⟩
  · rw [get_pairwise_src, List.length_flatMap]
    have hmap : (List.range n).map (List.length ∘ fun i => List.replicate (n - 1) i) =
        (List.range n).map fun _ => n - 1 := by
      apply List.map_congr_left
      intro a _
      simp
    rw [hmap, List.map_const', List.sum_replicate, List.length_range, smul_eq_mul]
  · rw [get_pairwise_dst, List.length_flatMap]
    have hmap : (List.range n).map
        (List.length ∘ fun idx =>
          (List.range n).take idx ++ (List.range n).drop (idx + 1)) =
        (List.range n).map fun _ => n - 1 := by
      apply List.map_congr_left
      intro a ha
      rw [List.mem_range] at ha
      simp only [Function.comp_apply]
      exact length_dst_block ha
    rw [hmap, List.map_const', List.sum_replicate, List.length_range, smul_eq_mul]
  · rw [zip_src_dst, List.nodup_flatMap]
    constructor
    · intro i _
      apply List.Nodup.map
      · intro a b hab
        simpa using congrArg Prod.snd hab
      · exact nodup_dst_block n i
    · have hlt : (List.range n).Pairwise (· < ·) := List.pairwise_lt_range n
      apply hlt.imp
      intro a b hab
      intro p hpa hpb
      rw [List.mem_map] at hpa hpb
      obtain ⟨ja, _, rfl⟩ := hpa
      obtain ⟨jb, _, hb⟩ := hpb
      have hba : b = a := by simpa using congrArg Prod.fst hb
      omega
  · intro p
    rw [zip_src_dst, List.mem_flatMap]
    constructor
    · rintro ⟨i, hi, hp⟩
      rw [List.mem_range] at hi
      rw [List.mem_map] at hp
      obtain ⟨j, hj, rfl⟩ := hp
      rw [mem_dst_block hi] at hj
      exact ⟨hi, hj.1, fun h => hj.2 h.symm⟩
    · rintro ⟨h1, h2, h3⟩
      refine ⟨p.1, by rw [List.mem_range]; exact h1, ?_⟩
      rw [List.mem_map]
      exact ⟨p.2, (mem_dst_block h1).mpr ⟨h2, fun h => h3 h.symm⟩, rfl⟩
  · intro i
    rw [get_pairwise_src]
    exact count_flatMap_replicate (n - 1) i n
  · rw [get_pairwise_src]
    exact sorted_flatMap_replicate (n - 1) n
  · rw [get_pairwise_dst]
    apply flatMap_congr
    intro i hi
    rw [List.mem_range] at hi
    exact dst_block_eq_filter hi

/-- Claim C6.  The memo dictionary starts empty and is only written by
`get_pairwise`, so every reachable dictionary is `MemoWF`; under that
invariant a call that hits the memo returns exactly what a fresh computation
would produce, the invariant is preserved, and any two calls with the same
`n_atoms` (under any two reachable memo states) return equal results. -/
theorem C6_get_pairwise_memoisation_pure :
    MemoWF [] ∧
    (∀ memo, MemoWF memo → ∀ n, MemoWF (get_pairwise memo n).2) ∧
    (∀ memo, MemoWF memo → ∀ n,
      (get_pairwise memo n).1 = get_pairwise_fresh n ∧
      ∀ memo2, MemoWF memo2 → (get_pairwise memo2 n).1 = (get_pairwise memo n).1) := by
  have hval : ∀ memo, MemoWF memo → ∀ n,
      (get_pairwise memo n).1 = get_pairwise_fresh n := by
    intro memo hwf n
    rw [get_pairwise]
    cases h : memo.lookup n with
    | none => rfl
    | some p => exact hwf n p h
  refine ⟨?_, ?_, ?_⟩
  · intro n p h
    simp [List.lookup] at h
  · intro memo hwf n
    rw [get_pairwise]
    cases h : memo.lookup n with
    | none =>
      intro m p hm
      rw [List.lookup_cons] at hm
      cases hbe : (m == n) with
      | true =>
        rw [hbe] at hm
        simp only [Option.some_inj] at hm
        have hmn : m = n := eq_of_beq hbe
        subst hmn
        exact hm.symm
      | false =>
        rw [hbe] at hm
        exact hwf m p hm
    | some p => exact hwf
  · intro memo hwf n
    refine ⟨hval memo hwf n, ?_⟩
    intro memo2 hwf2
    rw [hval memo hwf n, hval memo2 hwf2 n]

/-- Concrete instantiation of the memoisation theorem: starting from the
empty memo of source line 127, a first call at `n_atoms = 3` returns the
fresh pair, and a second call (which hits the memo) returns the same value. -/
theorem C6_get_pairwise_memoisation_pure_witness :
    (get_pairwise [] 3).1 = get_pairwise_fresh 3 ∧
    (get_pairwise (get_pairwise [] 3).2 3).1 = (get_pairwise [] 3).1 :=
  have hwf : MemoWF [] := fun n p h => by simp [List.lookup_nil] at h
  ⟨(C6_get_pairwise_memoisation_pure.2.2 [] hwf 3).1,
   (C6_get_pairwise_memoisation_pure.2.2 [] hwf 3).2
     (get_pairwise [] 3).2
     (C6_get_pairwise_memoisation_pure.2.1 [] hwf 3)⟩

theorem liftOpt_some {α : Type} (e : Err) (a : α) : liftOpt e (some a) = .ok a := rfl

theorem liftOpt_none {α : Type} (e : Err) : liftOpt e (none : Option α) = .error e := rfl

theorem ok_bind {α β : Type} (a : α) (f : α → Except Err β) :
    (Except.ok a >>= f) = f a := rfl

theorem error_bind {α β : Type} (e : Err) (f : α → Except Err β) :
    ((Except.error e : Except Err α) >>= f) = Except.error e := rfl

theorem length_offs (f : RawMol → Nat) : ∀ (t : Nat) (R : List RawMol),
    (offs f t R).length = R.length
  | _, [] => rfl
  | t, m :: R => by
    rw [offs, List.length_cons, length_offs f (t + f m) R]
    simp

theorem chain'_offs (f : RawMol → Nat) : ∀ (t : Nat) (R : List RawMol),
    List.Chain' (· ≤ ·) (t :: offs f t R)
  | _, [] => List.chain'_singleton _
  | t, m :: R => by
    rw [offs]
    exact List.Chain'.cons (Nat.le_add_right t (f m)) (chain'_offs f (t + f m) R)

theorem getD_offs_succ (f : RawMol → Nat) : ∀ (R : List RawMol) (t i : Nat),
    i < R.length →
    (t :: offs f t R).getD (i + 1) 0 =
      (t :: offs f t R).getD i 0 + f (R.getD i mol0)
  | [], _, i, hi => absurd hi (by simp)
  | m :: R, t, 0, _ => by simp [offs]
  | m :: R, t, i + 1, hi => by
    rw [offs]
    have ih := getD_offs_succ f R (t + f m) i (by simpa using hi)
    simpa using ih

theorem getLastD_offs (f : RawMol → Nat) : ∀ (R : List RawMol) (t d : Nat),
    (t :: offs f t R).getLastD d = t + (R.map f).sum
  | [], t, d => by
    rw [offs]
    simp
  | m :: R, t, d => by
    rw [offs, List.getLastD_cons]
    rw [getLastD_offs f R (t + f m) t]
    simp only [List.map_cons, List.sum_cons]
    omega

theorem length_edgeRow (bonds : List (Nat × Nat)) :
    (bonds.flatMap fun b => [b.1, b.2]).length = 2 * bonds.length := by
  induction bonds with
  | nil => rfl
  | cons b bonds ih =>
    rw [List.flatMap_cons, List.length_append, ih, List.length_cons]
    simp
    omega

theorem length_edgePairs (bonds : List (Nat × Nat)) :
    (edgePairs bonds).length = 2 * bonds.length := by
  rw [edgePairs]
  induction bonds with
  | nil => rfl
  | cons b bonds ih =>
    rw [List.flatMap_cons, List.length_append, ih, List.length_cons]
    simp
    omega

theorem length_edgeBlock (m : RawMol) :
    (edgeBlock m).length = 2 * m.bonds.length := by
  rw [edgeBlock, sortEdges, List.length_mergeSort, length_edgePairs]

/-- What one retained iteration of the `process` loop does to the
claim-relevant accumulator fields. -/
theorem stepRetained_ok {acc : ProcAcc} {m : RawMol} {e : EnsembleData}
    {acc' : ProcAcc} (h : stepRetained acc m e = .ok acc') :
    acc'.atom_slices = acc.atom_slices ++ [acc.total_atoms + m.atoms.length] ∧
    acc'.total_atoms = acc.total_atoms + m.atoms.length ∧
    acc'.edge_slices = acc.edge_slices ++ [acc.total_edges + 2 * m.bonds.length] ∧
    acc'.total_edges = acc.total_edges + 2 * m.bonds.length ∧
    acc'.edge_indices = acc.edge_indices ++ [edgeBlock m] ∧
    acc'.n_atoms_list = acc.n_atoms_list ++ [m.atoms.length] ∧
    acc'.smiles_list = acc.smiles_list ++ [m.smiles] ∧
    ∃ b, molCoords m = .ok b ∧ acc'.coordinates = acc.coordinates ++ [b] := by
  rw [stepRetained] at h
  cases hc : m.conformers.head? with
  | none => rw [hc, liftOpt_none, error_bind] at h; simp at h
  | some c0 =>
    rw [hc] at h
    simp only [liftOpt_some, ok_bind] at h
    cases ht : m.atoms.mapM fun s => liftOpt (Err.keyError s) (atom_types.lookup s) with
    | error er => rw [ht, error_bind] at h; simp at h
    | ok type_idx =>
      rw [ht] at h
      simp only [ok_bind] at h
      cases hn : m.atoms.mapM fun s => liftOpt (Err.keyError s) (symbols.lookup s) with
      | error er => rw [hn, error_bind] at h; simp at h
      | ok nums =>
        rw [hn] at h
        simp only [ok_bind] at h
        by_cases hz : m.atoms.length = 0
        · rw [if_pos hz] at h; simp at h
        · rw [if_neg hz] at h
          cases hcat : catColsM (padConformers c0 m.conformers) with
          | error er => rw [hcat, error_bind] at h; simp at h
          | ok block =>
            rw [hcat] at h
            simp only [ok_bind, Except.ok.injEq] at h
            subst h
            have hrow : (m.bonds.flatMap fun b => [b.1, b.2]).length =
                2 * m.bonds.length := length_edgeRow m.bonds
            refine ⟨by simp, by simp, ?_, ?_,
              by simp [edgeBlock], by simp, by simp, ?_⟩
            · simp only [hrow]
            · simp only [hrow]
            · refine ⟨block, ?_, by simp⟩
              rw [molCoords, hc, liftOpt_some, ok_bind, hcat]

/-- The cumulative effect of the `process` loop on the claim-relevant
accumulator fields, for an arbitrary starting accumulator. -/
theorem foldl_procStep_spec : ∀ (mols : List RawMol) (acc acc' : ProcAcc),
    List.foldlM procStep acc mols = .ok acc' →
    acc'.atom_slices = acc.atom_slices ++
      offs (fun m => m.atoms.length) acc.total_atoms (mols.filter retainedMol) ∧
    acc'.total_atoms = acc.total_atoms +
      ((mols.filter retainedMol).map fun m => m.atoms.length).sum ∧
    acc'.edge_slices = acc.edge_slices ++
      offs (fun m => 2 * m.bonds.length) acc.total_edges (mols.filter retainedMol) ∧
    acc'.total_edges = acc.total_edges +
      ((mols.filter retainedMol).map fun m => 2 * m.bonds.length).sum ∧
    acc'.edge_indices = acc.edge_indices ++ (mols.filter retainedMol).map edgeBlock ∧
    acc'.n_atoms_list = acc.n_atoms_list ++
      ((mols.filter retainedMol).map fun m => m.atoms.length) ∧
    acc'.smiles_list = acc.smiles_list ++ (mols.filter retainedMol).map RawMol.smiles ∧
    ∃ bs, acc'.coordinates = acc.coordinates ++ bs ∧
      List.Forall₂ (fun m b => molCoords m = .ok b) (mols.filter retainedMol) bs := by
  intro mols
  induction mols with
  | nil =>
    intro acc acc' h
    simp only [List.foldlM_nil, pure, Except.pure, Except.ok.injEq] at h
    subst h
    refine ⟨by simp [offs], by simp, by simp [offs], by simp, by simp, by simp,
      by simp, [], by simp, List.Forall₂.nil⟩
  | cons m mols ih =>
    intro acc acc' h
    rw [List.foldlM_cons, procStep] at h
    by_cases hp : m.has_pickle
    · rw [if_pos hp] at h
      cases he : m.ensemble with
      | none =>
        rw [he] at h
        simp only [ok_bind] at h
        have hr : retainedMol m = false := by simp [retainedMol, hp, he]
        rw [List.filter_cons_of_neg (by simp [hr])]
        exact ih acc acc' h
      | some e =>
        rw [he] at h
        simp only [] at h
        cases hs : stepRetained acc m e with
        | error er => rw [hs, error_bind] at h; simp at h
        | ok acc1 =>
          rw [hs, ok_bind] at h
          have hr : retainedMol m = true := by simp [retainedMol, hp, he]
          rw [List.filter_cons_of_pos (by simp [hr])]
          obtain ⟨h1, h2, h3, h4, h5, h6, h7, b, hb, h8⟩ := stepRetained_ok hs
          obtain ⟨g1, g2, g3, g4, g5, g6, g7, bs, gb, g8⟩ := ih acc1 acc' h
          refine ⟨?_, ?_, ?_, ?_, ?_, ?_, ?_, b :: bs, ?_, List.Forall₂.cons hb g8⟩
          · rw [g1, h1, h2, offs, List.append_assoc]
            simp
          · rw [g2, h2, List.map_cons, List.sum_cons]
            omega
          · rw [g3, h3, h4, offs, List.append_assoc]
            simp
          · rw [g4, h4, List.map_cons, List.sum_cons]
            omega
          · rw [g5, h5, List.map_cons, List.append_assoc]
            simp
          · rw [g6, h6, List.map_cons, List.append_assoc]
            simp
          · rw [g7, h7, List.map_cons, List.append_assoc]
            simp
          · rw [gb, h8, List.append_assoc]
            simp
    · rw [if_neg hp] at h
      simp only [ok_bind] at h
      have hr : retainedMol m = false := by simp [retainedMol, hp]
      rw [List.filter_cons_of_neg (by simp [hr])]
      exact ih acc acc' h

theorem getD_map_lt {α β : Type} (f : α → β) (d : α) (d' : β) :
    ∀ (l : List α) (i : Nat), i < l.length → (l.map f).getD i d' = f (l.getD i d)
  | [], i, hi => absurd hi (by simp)
  | a :: l, 0, _ => rfl
  | a :: l, i + 1, hi => by
    simp only [List.map_cons, List.getD_cons_succ]
    exact getD_map_lt f d d' l i (by simpa using hi)

/-- Claim C2.  After a successful `process`, the cached `atom_slices` and
`edge_slices` tables both start at 0, have one more entry than the number of
retained molecules, are non-decreasing, and consecutive differences give
each retained molecule's atom count (equal to the cached `n_atoms` entry)
and twice its bond count; the concatenated `edge_indices` tensor has exactly
`edge_slices[-1]` columns. -/
theorem C2_process_offset_tables (mols : List RawMol) (dd : DataDict)
    (h : processDict mols = .ok dd) :
    ∃ asl esl nl E,
      lookupDD dd "atom_slices" = some (.nats asl) ∧
      lookupDD dd "edge_slices" = some (.nats esl) ∧
      lookupDD dd "n_atoms" = some (.nats nl) ∧
      lookupDD dd "edge_indices" = some (.edges E) ∧
      asl.head? = some 0 ∧ esl.head? = some 0 ∧
      asl.length = (mols.filter retainedMol).length + 1 ∧
      esl.length = (mols.filter retainedMol).length + 1 ∧
      List.Chain' (· ≤ ·) asl ∧ List.Chain' (· ≤ ·) esl ∧
      (∀ i, i < (mols.filter retainedMol).length →
        asl.getD (i + 1) 0 - asl.getD i 0 = nl.getD i 0 ∧
        nl.getD i 0 = ((mols.filter retainedMol).getD i mol0).atoms.length ∧
        esl.getD (i + 1) 0 - esl.getD i 0 =
          2 * ((mols.filter retainedMol).getD i mol0).bonds.length) ∧
      E.length = esl.getLastD 0 := by
  rw [processDict] at h
  cases hp : process_core mols with
  | error e => rw [hp, error_bind] at h; simp at h
  | ok acc =>
    rw [hp] at h
    simp only [ok_bind] at h
    by_cases hne : acc.n_atoms_list.isEmpty
    · rw [if_pos hne] at h; simp at h
    · rw [if_neg hne] at h
      simp only [Except.ok.injEq] at h
      subst h
      obtain ⟨h1, _, h3, _, h5, h6, _, _⟩ :=
        foldl_procStep_spec mols procAcc0 acc hp
      have ha : acc.atom_slices =
          0 :: offs (fun m => m.atoms.length) 0 (mols.filter retainedMol) := by
        rw [h1]
        rfl
      have he : acc.edge_slices =
          0 :: offs (fun m => 2 * m.bonds.length) 0 (mols.filter retainedMol) := by
        rw [h3]
        rfl
      have hn : acc.n_atoms_list =
          (mols.filter retainedMol).map fun m => m.atoms.length := by
        rw [h6]
        rfl
      have hei : acc.edge_indices = (mols.filter retainedMol).map edgeBlock := by
        rw [h5]
        rfl
      refine ⟨acc.atom_slices, acc.edge_slices, acc.n_atoms_list,
        acc.edge_indices.flatten, rfl, rfl, rfl, rfl, ?_, ?_, ?_, ?_, ?_, ?_, ?_, ?_⟩
      · rw [ha]
        rfl
      · rw [he]
        rfl
      · rw [ha]
        simp [length_offs]
      · rw [he]
        simp [length_offs]
      · rw [ha]
        exact chain'_offs _ 0 _
      · rw [he]
        exact chain'_offs _ 0 _
      · intro i hi
        have hgn : acc.n_atoms_list.getD i 0 =
            ((mols.filter retainedMol).getD i mol0).atoms.length := by
          rw [hn]
          exact getD_map_lt _ mol0 0 _ i hi
        refine ⟨?_, hgn, ?_⟩
        · rw [ha, getD_offs_succ _ _ 0 i hi, hgn]
          omega
        · rw [he, getD_offs_succ _ _ 0 i hi]
          omega
      · rw [hei, he, getLastD_offs]
        rw [List.length_flatten, List.map_map]
        have hcong : ((mols.filter retainedMol).map (List.length ∘ edgeBlock)) =
            (mols.filter retainedMol).map fun m => 2 * m.bonds.length := by
          apply List.map_congr_left
          intro m _
          exact length_edgeBlock m
        rw [hcong]
        omega

/-- Concrete instantiation of the C2 offset-table theorem on the
one-molecule dataset `[m1]`. -/
theorem C2_process_offset_tables_witness :
    ∃ asl esl nl E,
      lookupDD ddC2 "atom_slices" = some (.nats asl) ∧
      lookupDD ddC2 "edge_slices" = some (.nats esl) ∧
      lookupDD ddC2 "n_atoms" = some (.nats nl) ∧
      lookupDD ddC2 "edge_indices" = some (.edges E) ∧
      asl.head? = some 0 ∧ esl.head? = some 0 ∧
      asl.length = ([m1].filter retainedMol).length + 1 ∧
      esl.length = ([m1].filter retainedMol).length + 1 ∧
      List.Chain' (· ≤ ·) asl ∧ List.Chain' (· ≤ ·) esl ∧
      (∀ i, i < ([m1].filter retainedMol).length →
        asl.getD (i + 1) 0 - asl.getD i 0 = nl.getD i 0 ∧
        nl.getD i 0 = (([m1].filter retainedMol).getD i mol0).atoms.length ∧
        esl.getD (i + 1) 0 - esl.getD i 0 =
          2 * (([m1].filter retainedMol).getD i mol0).bonds.length) ∧
      E.length = esl.getLastD 0 :=
  C2_process_offset_tables [m1] ddC2 (by rfl)

theorem of_mem_zipWith {α β γ : Type} {f : α → β → γ} :
    ∀ {l1 : List α} {l2 : List β} {x : γ}, x ∈ List.zipWith f l1 l2 →
      ∃ a ∈ l1, ∃ b ∈ l2, x = f a b
  | [], _, x, h => absurd h (by simp)
  | _ :: _, [], x, h => absurd h (by simp)
  | a :: l1, b :: l2, x, h => by
    rw [List.zipWith_cons_cons, List.mem_cons] at h
    rcases h with rfl | h
    · exact ⟨a, by simp, b, by simp, rfl⟩
    · obtain ⟨a1, ha, b1, hb, hx⟩ := of_mem_zipWith h
      exact ⟨a1, by simp [ha], b1, by simp [hb], hx⟩

/-- Row widths of `torch.cat(mats, dim=1)`: with `mats` of uniform row width
`w`, every output row has width `mats.length * w`. -/
theorem catColsM_width : ∀ (mats : List (List (List Rat))) (out : List (List Rat))
    (w : Nat), catColsM mats = .ok out →
    (∀ mat ∈ mats, ∀ r ∈ mat, r.length = w) →
    ∀ r ∈ out, r.length = mats.length * w
  | [], out, w, h, _ => by simp [catColsM] at h
  | [mat], out, w, h, hw => by
    simp only [catColsM, Except.ok.injEq] at h
    subst h
    intro r hr
    rw [hw mat (by simp) r hr]
    simp
  | mat :: next :: rest, out, w, h, hw => by
    rw [catColsM] at h
    cases hr : catColsM (next :: rest) with
    | error er => rw [hr, error_bind] at h; simp at h
    | ok r2 =>
      rw [hr] at h
      simp only [ok_bind] at h
      by_cases hl : mat.length = r2.length
      · rw [if_pos hl] at h
        simp only [Except.ok.injEq] at h
        subst h
        intro r hmem
        obtain ⟨a, ha, b, hb, rfl⟩ := of_mem_zipWith hmem
        have hb2 : b.length = (next :: rest).length * w :=
          catColsM_width (next :: rest) r2 w hr
            (fun mt hmt r hrr => hw mt (List.mem_cons_of_mem mat hmt) r hrr) b hb
        rw [List.length_append, hw mat (by simp) a ha, hb2]
        simp only [List.length_cons]
        ring
      · rw [if_neg hl] at h
        simp at h

theorem zipWith_append_map_take : ∀ (mat r : List (List Rat)),
    (∀ x ∈ mat, x.length = 3) →
    (List.zipWith (fun a b => a ++ b) mat r).map (fun x => x.take 3) =
      mat.take r.length
  | [], r, _ => by simp
  | mat, [], _ => by simp
  | a :: mat, b :: r, hw => by
    rw [List.zipWith_cons_cons, List.map_cons]
    have ha : (a ++ b).take 3 = a := by
      conv_lhs => rw [show 3 = a.length from (hw a (by simp)).symm]
      exact List.take_left a b
    rw [ha, List.length_cons, List.take_succ_cons,
      zipWith_append_map_take mat r fun x hx => hw x (List.mem_cons_of_mem a hx)]

/-- The first three columns of `torch.cat(mats, dim=1)` recover the first
matrix when its rows have width 3. -/
theorem catColsM_take3 : ∀ (mats : List (List (List Rat))) (out : List (List Rat)),
    catColsM mats = .ok out →
    (∀ x ∈ mats.headD [], x.length = 3) →
    out.map (fun r => r.take 3) = mats.headD []
  | [], out, h, _ => by simp [catColsM] at h
  | [mat], out, h, hw => by
    simp only [catColsM, Except.ok.injEq] at h
    subst h
    simp only [List.headD_cons] at hw ⊢
    apply List.map_congr_left ?_ |>.trans (List.map_id mat)
    intro r hr
    conv_lhs => rw [show 3 = r.length from (hw r hr).symm]
    exact List.take_length r
  | mat :: next :: rest, out, h, hw => by
    rw [catColsM] at h
    cases hr : catColsM (next :: rest) with
    | error er => rw [hr, error_bind] at h; simp at h
    | ok r2 =>
      rw [hr] at h
      simp only [ok_bind] at h
      by_cases hl : mat.length = r2.length
      · rw [if_pos hl] at h
        simp only [Except.ok.injEq] at h
        subst h
        simp only [List.headD_cons] at hw ⊢
        rw [zipWith_append_map_take mat r2 hw, ← hl, List.take_length]
      · rw [if_neg hl] at h
        simp at h

/- ### Bind-splitting helpers and the constructor extraction lemmas -/
theorem bind_ok {α β : Type} {x : Except Err α} {f : α → Except Err β} {b : β}
    (h : (x >>= f) = .ok b) : ∃ a, x = .ok a ∧ f a = .ok b := by
  cases x with
  | error e => rw [error_bind] at h; simp at h
  | ok a =>
    rw [ok_bind] at h
    exact ⟨a, rfl, h⟩

theorem bind_isErr {α β : Type} (x : Except Err α) (f : α → Except Err β)
    (hf : ∀ a, isErr (f a) = true) : isErr (x >>= f) = true := by
  cases x with
  | error e => rfl
  | ok a => rw [ok_bind]; exact hf a

theorem bind_isErr_left {α β : Type} (x : Except Err α) (f : α → Except Err β)
    (hx : isErr x = true) : isErr (x >>= f) = true := by
  cases x with
  | error e => rfl
  | ok a => simp [isErr] at hx

/-- What a successful `buildCore` (constructor lines 97-147) says about the
fields the claims read. -/
theorem buildCore_ok {a : Args} {rts : List String} {dd : DataDict} {p : PreState}
    (h : buildCore a rts dd = .ok p) :
    featTensor dd a.features = .ok p.features_tensor ∧
    featTensor dd a.features3d = .ok p.features3d_tensor ∧
    featTensorF dd a.e_features = .ok p.e_features_tensor ∧
    featTensorF dd a.e_features3d = .ok p.e_features3d_tensor ∧
    (∃ ct, ddTensor dd "coordinates" = .ok ct ∧
      p.coordinates = Tensor.mk ct.dtype (ct.rows.map fun r => r.take 3) ∧
      p.conformations = (if "conformations" ∈ rts then some ct else none)) ∧
    mkMeta dd = .ok p.meta_dict := by
  rw [buildCore] at h
  obtain ⟨ft, hft, h⟩ := bind_ok h
  obtain ⟨ft3, hft3, h⟩ := bind_ok h
  obtain ⟨eft, heft, h⟩ := bind_ok h
  obtain ⟨eft3, heft3, h⟩ := bind_ok h
  obtain ⟨ct, hct, h⟩ := bind_ok h
  obtain ⟨eIdx, _, h⟩ := bind_ok h
  obtain ⟨meta, hmeta, h⟩ := bind_ok h
  obtain ⟨eig, _, h⟩ := bind_ok h
  obtain ⟨molGs, _, h⟩ := bind_ok h
  obtain ⟨pairC, _, h⟩ := bind_ok h
  obtain ⟨pairMC, _, h⟩ := bind_ok h
  obtain ⟨avg, _, h⟩ := bind_ok h
  simp only [pure, Except.pure, Except.ok.injEq] at h
  subst h
  exact ⟨hft, hft3, heft, heft3, ⟨ct, hct, rfl, rfl⟩, hmeta⟩

/-- What a successful `initFromDict` says about the constructed fields the
claims read. -/
theorem initFromDict_ok {ext : Ext} {a : Args} {dd0 : DataDict} {g : GEOM}
    (h : initFromDict ext a dd0 = .ok g) :
    validateRTs (resolveRTs a) = .ok () ∧
    ∃ dd p tg, augmentDD ext a dd0 = .ok dd ∧
      buildCore a (resolveRTs a) dd = .ok p ∧
      targetsStep ext a (resolveRTs a) dd = .ok tg ∧
      g.return_types = resolveRTs a ∧
      g.features_tensor = p.features_tensor ∧
      g.features3d_tensor = p.features3d_tensor ∧
      g.e_features_tensor = p.e_features_tensor ∧
      g.e_features3d_tensor = p.e_features3d_tensor ∧
      g.coordinates = p.coordinates ∧
      g.conformations = p.conformations ∧
      g.meta_dict = p.meta_dict ∧
      g.targets = tg.map fun x => x.1 := by
  rw [initFromDict] at h
  obtain ⟨u, hu, h⟩ := bind_ok h
  obtain ⟨dd, hdd, h⟩ := bind_ok h
  obtain ⟨p, hp, h⟩ := bind_ok h
  obtain ⟨tg, htg, h⟩ := bind_ok h
  simp only [pure, Except.pure, Except.ok.injEq] at h
  subst h
  have hu' : validateRTs (resolveRTs a) = .ok () := by
    cases u
    exact hu
  exact ⟨hu', dd, p, tg, hdd, hp, htg, rfl, rfl, rfl, rfl, rfl, rfl, rfl, rfl, rfl⟩

/-- The five keys of `self.meta_dict` (source line 109). -/
theorem mkMeta_ok {dd meta : DataDict} (h : mkMeta dd = .ok meta) :
    ∃ v1 v2 v3 v4 v5,
      ddGet dd "smiles" = .ok v1 ∧ ddGet dd "edge_slices" = .ok v2 ∧
      ddGet dd "atom_slices" = .ok v3 ∧ ddGet dd "n_atoms" = .ok v4 ∧
      ddGet dd "uniqueconfs" = .ok v5 ∧
      meta = [("smiles", v1), ("edge_slices", v2), ("atom_slices", v3),
        ("n_atoms", v4), ("uniqueconfs", v5)] := by
  rw [mkMeta] at h
  obtain ⟨v1, h1, h⟩ := bind_ok h
  obtain ⟨v2, h2, h⟩ := bind_ok h
  obtain ⟨v3, h3, h⟩ := bind_ok h
  obtain ⟨v4, h4, h⟩ := bind_ok h
  obtain ⟨v5, h5, h⟩ := bind_ok h
  simp only [pure, Except.pure, Except.ok.injEq] at h
  exact ⟨v1, v2, v3, v4, v5, h1, h2, h3, h4, h5, h.symm⟩

/- ### Claim C3: cache handling -/
/-- Claim C3.  The constructor's load phase runs `process()` exactly when
the processed cache file is missing, and in either case returns the dict
stored in the (possibly just written) cache file; a second construction
with the cache present runs no re-parsing: its result is the cached dict,
independent of the raw per-molecule records. -/
theorem C3_process_iff_cache_missing :
    (∀ fs fs' dd b, loadPhase fs = .ok (fs', dd, b) →
      ((b = true ↔ fs.processedFile = none) ∧ fs'.processedFile = some dd)) ∧
    (∀ fs fs' dd b, loadPhase fs = .ok (fs', dd, b) → ∀ raw2,
      loadPhase { raw := raw2, processedFile := fs'.processedFile } =
        .ok ({ raw := raw2, processedFile := fs'.processedFile }, dd, false)) := by
  have hmain : ∀ fs fs' dd b, loadPhase fs = .ok (fs', dd, b) →
      ((b = true ↔ fs.processedFile = none) ∧ fs'.processedFile = some dd) := by
    intro fs fs' dd b h
    rw [loadPhase] at h
    cases hpf : fs.processedFile with
    | some d =>
      rw [hpf] at h
      simp only [Except.ok.injEq, Prod.mk.injEq] at h
      obtain ⟨h1, h2, h3⟩ := h
      subst h1
      subst h2
      subst h3
      refine ⟨?_, hpf⟩
      simp [hpf]
    | none =>
      rw [hpf] at h
      obtain ⟨fs1, hfs1, h⟩ := bind_ok h
      obtain ⟨d, hd, h⟩ := bind_ok h
      simp only [pure, Except.pure, Except.ok.injEq, Prod.mk.injEq] at h
      obtain ⟨h1, h2, h3⟩ := h
      subst h1
      subst h2
      subst h3
      rw [processSave] at hfs1
      obtain ⟨dd2, hdd2, hpure⟩ := bind_ok hfs1
      simp only [pure, Except.pure, Except.ok.injEq] at hpure
      subst hpure
      have hpf1 : ({ raw := fs.raw, processedFile := some dd2 } : FS).processedFile
          = some dd2 := rfl
      rw [hpf1, liftOpt_some] at hd
      simp only [Except.ok.injEq] at hd
      subst hd
      exact ⟨by simp, rfl⟩
  refine ⟨hmain, ?_⟩
  intro fs fs' dd b h raw2
  obtain ⟨-, hsome⟩ := hmain fs fs' dd b h
  rw [hsome]
  rfl

/-- Concrete instantiation of the C3 cache theorem: a first construction on
`fs3` (no cache) processes and writes the cache; a second construction with
the produced cache re-parses nothing even when the raw records change. -/
theorem C3_process_iff_cache_missing_witness :
    ((true = true ↔ fs3.processedFile = none) ∧
      loadC3.1.processedFile = some loadC3.2.1) ∧
    loadPhase { raw := [], processedFile := loadC3.1.processedFile } =
      .ok ({ raw := [], processedFile := loadC3.1.processedFile },
        loadC3.2.1, false) :=
  ⟨C3_process_iff_cache_missing.1 fs3 loadC3.1 loadC3.2.1 true (by rfl),
   C3_process_iff_cache_missing.2 fs3 loadC3.1 loadC3.2.1 true (by rfl) []⟩

/- ### Claim C7: the feature concatenations -/
theorem zipWith_append_getD : ∀ (a b : List (List Rat)), a.length = b.length →
    ∀ j, (List.zipWith (fun x y => x ++ y) a b).getD j [] =
      a.getD j [] ++ b.getD j []
  | [], [], _, j => by simp
  | [], b :: bs, h, j => by simp at h
  | a :: as, [], h, j => by simp at h
  | a :: as, b :: bs, h, 0 => by simp
  | a :: as, b :: bs, h, j + 1 => by
    simp only [List.zipWith_cons_cons, List.getD_cons_succ]
    exact zipWith_append_getD as bs (by simpa using h) j

/-- Row `j` of `torch.cat(ts, dim=-1)` is the concatenation of the rows `j`
of the inputs, in order. -/
theorem catLast_getD : ∀ (ts : List Tensor) (t : Tensor), catLast ts = .ok t →
    ∀ j, t.rows.getD j [] = (ts.map fun u => u.rows.getD j []).flatten
  | [], t, h, j => by simp [catLast] at h
  | [t0], t, h, j => by
    simp only [catLast, Except.ok.injEq] at h
    subst h
    simp
  | t0 :: next :: rest, t, h, j => by
    rw [catLast] at h
    obtain ⟨r, hr, h⟩ := bind_ok h
    by_cases hl : t0.rows.length = r.rows.length
    · rw [if_pos hl] at h
      simp only [Except.ok.injEq] at h
      subst h
      simp only [List.map_cons, List.flatten_cons]
      show (List.zipWith (fun x y => x ++ y) t0.rows r.rows).getD j [] = _
      rw [zipWith_append_getD t0.rows r.rows hl j,
        catLast_getD (next :: rest) r hr j]
      simp
    · rw [if_neg hl] at h
      simp at h

theorem featTensor_ok {dd : DataDict} {keys : List String} {o : Option Tensor}
    (h : featTensor dd keys = .ok o) :
    (o = none ↔ keys = []) ∧
    (keys ≠ [] → ∃ ts t, keys.mapM (fun k => ddTensor dd k) = .ok ts ∧
      catLast ts = .ok t ∧ o = some t) := by
  rw [featTensor] at h
  by_cases hk : keys = []
  · rw [if_pos hk] at h
    simp only [pure, Except.pure, Except.ok.injEq] at h
    subst h
    exact ⟨by simp [hk], fun hne => absurd hk hne⟩
  · rw [if_neg hk] at h
    obtain ⟨ts, hts, h⟩ := bind_ok h
    obtain ⟨t, ht, h⟩ := bind_ok h
    simp only [pure, Except.pure, Except.ok.injEq] at h
    subst h
    exact ⟨by simp [hk], fun _ => ⟨ts, t, hts, ht, rfl⟩⟩

theorem featTensorF_ok {dd : DataDict} {keys : List String} {o : Option Tensor}
    (h : featTensorF dd keys = .ok o) :
    (o = none ↔ keys = []) ∧
    (keys ≠ [] → ∃ ts t, keys.mapM (fun k => ddTensor dd k) = .ok ts ∧
      catLast ts = .ok t ∧ o = some t.toFloat) := by
  rw [featTensorF] at h
  obtain ⟨o1, ho1, h⟩ := bind_ok h
  obtain ⟨h1, h2⟩ := featTensor_ok ho1
  cases o1 with
  | none =>
    simp only [pure, Except.pure, Except.ok.injEq] at h
    subst h
    have hk : keys = [] := h1.mp rfl
    exact ⟨by simp [hk], fun hne => absurd hk hne⟩
  | some t1 =>
    simp only [pure, Except.pure, Except.ok.injEq] at h
    subst h
    have hk : keys ≠ [] := by
      intro hk0
      have := h1.mpr hk0
      simp at this
    obtain ⟨ts, t, hts, ht, hsome⟩ := h2 hk
    simp only [Option.some_inj] at hsome
    subst hsome
    exact ⟨by simp [hk], fun _ => ⟨ts, t1, hts, ht, rfl⟩⟩

/-- Claim C7.  In a successful construction, each of the four feature
tensors is `None` exactly when its key list is empty, and otherwise is the
`dim=-1` concatenation of the (augmented) `data_dict` tensors taken in the
order the keys appear in the list — the two edge-feature tensors
additionally cast to float.  The final conjunct pins down the
concatenation: each row is the concatenation of the inputs' rows in list
order. -/
theorem C7_feature_concatenation (ext : Ext) (a : Args) (dd0 : DataDict)
    (g : GEOM) (h : initFromDict ext a dd0 = .ok g) :
    ∃ dd, augmentDD ext a dd0 = .ok dd ∧
      ((g.features_tensor = none ↔ a.features = []) ∧
        (a.features ≠ [] → ∃ ts t,
          a.features.mapM (fun k => ddTensor dd k) = .ok ts ∧
          catLast ts = .ok t ∧ g.features_tensor = some t)) ∧
      ((g.features3d_tensor = none ↔ a.features3d = []) ∧
        (a.features3d ≠ [] → ∃ ts t,
          a.features3d.mapM (fun k => ddTensor dd k) = .ok ts ∧
          catLast ts = .ok t ∧ g.features3d_tensor = some t)) ∧
      ((g.e_features_tensor = none ↔ a.e_features = []) ∧
        (a.e_features ≠ [] → ∃ ts t,
          a.e_features.mapM (fun k => ddTensor dd k) = .ok ts ∧
          catLast ts = .ok t ∧ g.e_features_tensor = some t.toFloat)) ∧
      ((g.e_features3d_tensor = none ↔ a.e_features3d = []) ∧
        (a.e_features3d ≠ [] → ∃ ts t,
          a.e_features3d.mapM (fun k => ddTensor dd k) = .ok ts ∧
          catLast ts = .ok t ∧ g.e_features3d_tensor = some t.toFloat)) ∧
      (∀ ts t, catLast ts = .ok t → ∀ j,
        t.rows.getD j [] = (ts.map fun u => u.rows.getD j []).flatten) := by
  obtain ⟨-, dd, p, tg, hdd, hbc, -, -, hf, hf3, hef, hef3, -, -, -, -⟩ :=
    initFromDict_ok h
  obtain ⟨hbf, hbf3, hbef, hbef3, -, -⟩ := buildCore_ok hbc
  refine ⟨dd, hdd, ?_, ?_, ?_, ?_, fun ts t ht j => catLast_getD ts t ht j⟩
  · rw [hf]
    exact featTensor_ok hbf
  · rw [hf3]
    exact featTensor_ok hbf3
  · rw [hef]
    exact featTensorF_ok hbef
  · rw [hef3]
    exact featTensorF_ok hbef3

/- ### Claim C8: all-default construction raises -/
/-- Claim C8.  With all-default arguments, `return_types` becomes
`['mol_graph', 'targets']`, `target_tasks` stays `None`, and because
`'targets'` is among the return types the constructor evaluates
`target_tasks[0]`, which raises — so construction fails for every loaded
dict and every external oracle. -/
theorem C8_default_construction_raises :
    resolveRTs defaultArgs = ["mol_graph", "targets"] ∧
    defaultArgs.target_tasks = none ∧
    ∀ ext dd0, isErr (initFromDict ext defaultArgs dd0) = true := by
  refine ⟨rfl, rfl, ?_⟩
  intro ext dd0
  have htg : ∀ dd, isErr
      (targetsStep ext defaultArgs (resolveRTs defaultArgs) dd) = true := by
    intro dd
    rfl
  rw [initFromDict]
  apply bind_isErr
  intro u
  apply bind_isErr
  intro dd
  apply bind_isErr
  intro p
  exact bind_isErr_left _ _ (htg dd)

/-- Claim C9.  Every type in `unhandled_types` passes the constructor's
validation (it is in `return_type_options`) yet makes `data_by_type` raise
for every index and state; `edge_indices` is likewise accepted but raises a
`KeyError` on every constructed object, because `data_by_type` reads
`self.meta_dict['edge_indices']` and the constructor never stores that key
in `meta_dict`. -/
theorem C9_accepted_but_unhandled :
    (∀ rt ∈ unhandled_types, rt ∈ return_type_options ∧
      ∀ ext g idx e_start e_end start n_atoms,
        isErr (data_by_type ext g idx rt e_start e_end start n_atoms) = true) ∧
    ("edge_indices" ∈ return_type_options ∧
      ∀ ext a dd0 g, initFromDict ext a dd0 = .ok g →
        ∀ idx e_start e_end start n_atoms,
          isErr (data_by_type ext g idx "edge_indices"
            e_start e_end start n_atoms) = true) := by
  constructor
  · intro rt hrt
    fin_cases hrt <;>
      exact ⟨by decide, fun ext g idx e1 e2 st na => rfl⟩
  · refine ⟨by decide, ?_⟩
    intro ext a dd0 g h idx e1 e2 st na
    obtain ⟨-, dd, p, tg, -, hbc, -, -, -, -, -, -, -, -, hmd, -⟩ :=
      initFromDict_ok h
    obtain ⟨-, -, -, -, -, hmk⟩ := buildCore_ok hbc
    obtain ⟨v1, v2, v3, v4, v5, -, -, -, -, -, hmeta⟩ := mkMeta_ok hmk
    have hbranch : data_by_type ext g idx "edge_indices" e1 e2 st na =
        (ddGet g.meta_dict "edge_indices" >>= fun v =>
          match v with
          | .edges cols => pure (View.vedges (pySlice e1 e2 cols))
          | _ => .error (.typeError "edge_indices")) := rfl
    have hgm : g.meta_dict = [("smiles", v1), ("edge_slices", v2),
        ("atom_slices", v3), ("n_atoms", v4), ("uniqueconfs", v5)] := by
      rw [hmd, hmeta]
    rw [hbranch, hgm]
    rfl

/- ### Claim C4: `__getitem__` returns the configured views in order -/
theorem liftOpt_ok {α : Type} {e : Err} {o : Option α} {a : α}
    (h : liftOpt e o = .ok a) : o = some a := by
  cases o with
  | none => simp [liftOpt] at h
  | some b =>
    rw [liftOpt_some] at h
    simp only [Except.ok.injEq] at h
    rw [h]

theorem viewsFor_spec (ext : Ext) (g : GEOM) (idx e1 e2 st na : Nat) :
    ∀ (rts : List String) (views : List View),
      viewsFor ext g idx e1 e2 st na rts = .ok views →
      views.length = rts.length ∧
      ∀ k, k < rts.length →
        data_by_type ext g idx (rts.getD k "") e1 e2 st na =
          .ok (views.getD k (.vstr ""))
  | [], views, h => by
    simp only [viewsFor, Except.ok.injEq] at h
    subst h
    exact ⟨rfl, fun k hk => absurd hk (by simp)⟩
  | rt :: rts, views, h => by
    rw [viewsFor] at h
    obtain ⟨v, hv, h⟩ := bind_ok h
    obtain ⟨vs, hvs, h⟩ := bind_ok h
    simp only [pure, Except.pure, Except.ok.injEq] at h
    subst h
    obtain ⟨hlen, hk⟩ := viewsFor_spec ext g idx e1 e2 st na rts vs hvs
    refine ⟨by simp [hlen], ?_⟩
    intro k hkk
    cases k with
    | zero => simpa using hv
    | succ k =>
      simp only [List.getD_cons_succ]
      exact hk k (by simpa using hkk)

/-- Claim C4.  A successful `__getitem__(idx)` returns one view per
configured return type: the result has exactly `len(return_types)` entries
and its `k`-th entry is the view `data_by_type` produces for the `k`-th
return type, with the slice bounds read from the meta tables at `idx`. -/
theorem C4_getitem_views_in_order (ext : Ext) (g : GEOM) (idx : Nat)
    (views : List View) (h : getitem ext g idx = .ok views) :
    views.length = g.return_types.length ∧
    ∃ esl e_start e_end asl start nl n_atoms,
      ddNats g.meta_dict "edge_slices" = .ok esl ∧
      esl[idx]? = some e_start ∧ esl[idx + 1]? = some e_end ∧
      ddNats g.meta_dict "atom_slices" = .ok asl ∧ asl[idx]? = some start ∧
      ddNats g.meta_dict "n_atoms" = .ok nl ∧ nl[idx]? = some n_atoms ∧
      ∀ k, k < g.return_types.length →
        data_by_type ext g idx (g.return_types.getD k "")
            e_start e_end start n_atoms =
          .ok (views.getD k (.vstr "")) := by
  rw [getitem] at h
  obtain ⟨esl, hesl, h⟩ := bind_ok h
  obtain ⟨e1, he1, h⟩ := bind_ok h
  obtain ⟨e2, he2, h⟩ := bind_ok h
  obtain ⟨asl, hasl, h⟩ := bind_ok h
  obtain ⟨st, hst, h⟩ := bind_ok h
  obtain ⟨nl, hnl, h⟩ := bind_ok h
  obtain ⟨na, hna, h⟩ := bind_ok h
  obtain ⟨hlen, hk⟩ := viewsFor_spec ext g idx e1 e2 st na g.return_types views h
  exact ⟨hlen, esl, e1, e2, asl, st, nl, na, hesl, liftOpt_ok he1,
    liftOpt_ok he2, hasl, liftOpt_ok hst, hnl, liftOpt_ok hna, hk⟩

/-- Concrete instantiation of the C4 theorem: `getitem` on `g4` at index 0
returns the smiles string and the coordinate row, in the configured
order. -/
theorem C4_getitem_views_in_order_witness :
    ([View.vstr "C", View.vtensor ⟨DType.tfloat, [[1, 2, 3]]⟩] : List View).length =
      g4.return_types.length ∧
    ∃ esl e_start e_end asl start nl n_atoms,
      ddNats g4.meta_dict "edge_slices" = .ok esl ∧
      esl[0]? = some e_start ∧ esl[0 + 1]? = some e_end ∧
      ddNats g4.meta_dict "atom_slices" = .ok asl ∧ asl[0]? = some start ∧
      ddNats g4.meta_dict "n_atoms" = .ok nl ∧ nl[0]? = some n_atoms ∧
      ∀ k, k < g4.return_types.length →
        data_by_type ext0 g4 0 (g4.return_types.getD k "")
            e_start e_end start n_atoms =
          .ok (([View.vstr "C",
            View.vtensor ⟨DType.tfloat, [[1, 2, 3]]⟩] : List View).getD k
              (.vstr "")) :=
  C4_getitem_views_in_order ext0 g4 0
    [View.vstr "C", View.vtensor ⟨DType.tfloat, [[1, 2, 3]]⟩] (by rfl)

theorem sliceTable_length : ∀ (ns : List Nat) (t : Nat),
    (sliceTable t ns).length = ns.length + 1
  | [], _ => rfl
  | n :: ns, t => by
    rw [sliceTable, List.length_cons, sliceTable_length ns (t + n)]
    simp

theorem sliceTable_getD : ∀ (ns : List Nat) (t i : Nat), i ≤ ns.length →
    (sliceTable t ns).getD i 0 = t + (ns.take i).sum
  | ns, t, 0, _ => by cases ns <;> simp [sliceTable]
  | [], _, i + 1, hi => by simp at hi
  | n :: ns, t, i + 1, hi => by
    rw [sliceTable]
    simp only [List.getD_cons_succ, List.take_succ_cons, List.sum_cons]
    rw [sliceTable_getD ns (t + n) i (by simpa using hi)]
    omega

theorem getElem?_getD {α : Type} (l : List α) (i : Nat) (d : α)
    (h : i < l.length) : l[i]? = some (l.getD i d) := by
  rw [List.getElem?_eq_getElem h, List.getD_eq_getElem l d h]

theorem pySlice_append {α : Type} (l1 l2 : List α) (a b : Nat) :
    pySlice (l1.length + a) (l1.length + b) (l1 ++ l2) = pySlice a b l2 := by
  rw [pySlice, pySlice, List.take_append, List.drop_append]

/-- Slicing a flat row-block layout at the slice-table bounds returns
exactly the selected block. -/
theorem flatten_slice {α : Type} : ∀ (blocks : List (List α)) (hs : List Nat)
    (idx : Nat), blocks.length = hs.length →
    (∀ j, j < hs.length → (blocks.getD j []).length = hs.getD j 0) →
    idx < hs.length →
    pySlice ((hs.take idx).sum) ((hs.take idx).sum + hs.getD idx 0)
      blocks.flatten = blocks.getD idx []
  | [], hs, idx, hlen, _, hidx => by
    rw [← hlen] at hidx
    simp at hidx
  | b :: bs, hs, idx, hlen, hh, hidx => by
    cases hs with
    | nil => simp at hidx
    | cons hgt hs =>
      have hb : b.length = hgt := by simpa using hh 0 (by simp)
      cases idx with
      | zero =>
        simp only [List.take_zero, List.sum_nil, List.getD_cons_zero,
          List.flatten_cons, List.getD_cons_zero]
        rw [pySlice]
        simp only [Nat.zero_add, List.drop_zero]
        rw [← hb, List.take_left]
      | succ i =>
        simp only [List.take_succ_cons, List.sum_cons, List.getD_cons_succ,
          List.flatten_cons]
        have e1 : hgt + (hs.take i).sum = b.length + (hs.take i).sum := by
          rw [hb]
        have e2 : hgt + (hs.take i).sum + hs.getD i 0 =
            b.length + ((hs.take i).sum + hs.getD i 0) := by
          rw [hb]
          omega
        rw [e2, e1, pySlice_append]
        exact flatten_slice bs hs i (by simpa using hlen)
          (fun j hj => by simpa using hh (j + 1) (by simpa using hj))
          (by simpa using hidx)

theorem reqT_some (t : Tensor) : reqT (some t) = .ok t := rfl

/-- Claim C5.  With the flat feature and coordinate tensors laid out as the
concatenation of per-molecule row blocks whose heights are the cached
`n_atoms` and whose offsets are the cached `atom_slices`, `__getitem__`
configured with `['raw_features', 'coordinates']` returns, for every valid
index, exactly molecule `idx`'s feature block and coordinate block — the
contiguous rows `atom_slices[idx] .. atom_slices[idx] + n_atoms[idx] - 1`,
with no rows of any other molecule. -/
theorem C5_raw_features_coordinates_slices (ext : Ext) (g : GEOM)
    (fblocks cblocks : List (List (List Rat))) (nl esl : List Nat) (idx : Nat)
    (ft : Tensor)
    (hrts : g.return_types = ["raw_features", "coordinates"])
    (hft : g.features_tensor = some ft)
    (hfrows : ft.rows = fblocks.flatten)
    (hcrows : g.coordinates.rows = cblocks.flatten)
    (hes : lookupDD g.meta_dict "edge_slices" = some (.nats esl))
    (has : lookupDD g.meta_dict "atom_slices" =
      some (.nats (sliceTable 0 nl)))
    (hnn : lookupDD g.meta_dict "n_atoms" = some (.nats nl))
    (hfb : fblocks.length = nl.length)
    (hcb : cblocks.length = nl.length)
    (hfh : ∀ j, j < nl.length → (fblocks.getD j []).length = nl.getD j 0)
    (hch : ∀ j, j < nl.length → (cblocks.getD j []).length = nl.getD j 0)
    (hidx : idx < nl.length)
    (hesl : idx + 1 < esl.length) :
    getitem ext g idx =
      .ok [.vtensor ⟨ft.dtype, fblocks.getD idx []⟩,
           .vtensor ⟨g.coordinates.dtype, cblocks.getD idx []⟩] := by
  have hDN1 : ddNats g.meta_dict "edge_slices" = .ok esl := by
    rw [ddNats, ddGet, hes, liftOpt_some, ok_bind]
  have hDN2 : ddNats g.meta_dict "atom_slices" = .ok (sliceTable 0 nl) := by
    rw [ddNats, ddGet, has, liftOpt_some, ok_bind]
  have hDN3 : ddNats g.meta_dict "n_atoms" = .ok nl := by
    rw [ddNats, ddGet, hnn, liftOpt_some, ok_bind]
  have hlenST : idx < (sliceTable 0 nl).length := by
    rw [sliceTable_length]
    omega
  rw [getitem, hDN1, ok_bind,
    getElem?_getD esl idx 0 (by omega), liftOpt_some, ok_bind,
    getElem?_getD esl (idx + 1) 0 hesl, liftOpt_some, ok_bind,
    hDN2, ok_bind,
    getElem?_getD (sliceTable 0 nl) idx 0 hlenST, liftOpt_some, ok_bind,
    hDN3, ok_bind,
    getElem?_getD nl idx 0 hidx, liftOpt_some, ok_bind,
    hrts]
  have hst : (sliceTable 0 nl).getD idx 0 = (nl.take idx).sum := by
    rw [sliceTable_getD nl 0 idx (Nat.le_of_lt hidx)]
    omega
  have h1 : sliceT ft ((sliceTable 0 nl).getD idx 0)
      ((sliceTable 0 nl).getD idx 0 + nl.getD idx 0) =
      ⟨ft.dtype, fblocks.getD idx []⟩ := by
    rw [sliceT, hfrows, hst]
    exact congrArg (Tensor.mk ft.dtype) (flatten_slice fblocks nl idx hfb hfh hidx)
  have h2 : sliceT g.coordinates ((sliceTable 0 nl).getD idx 0)
      ((sliceTable 0 nl).getD idx 0 + nl.getD idx 0) =
      ⟨g.coordinates.dtype, cblocks.getD idx []⟩ := by
    rw [sliceT, hcrows, hst]
    exact congrArg (Tensor.mk g.coordinates.dtype)
      (flatten_slice cblocks nl idx hcb hch hidx)
  rw [viewsFor]
  have hbr1 : data_by_type ext g idx "raw_features"
      (esl.getD idx 0) (esl.getD (idx + 1) 0)
      ((sliceTable 0 nl).getD idx 0) (nl.getD idx 0) =
      (reqT g.features_tensor >>= fun f =>
        pure (View.vtensor (sliceT f ((sliceTable 0 nl).getD idx 0)
          ((sliceTable 0 nl).getD idx 0 + nl.getD idx 0)))) := rfl
  rw [hbr1, hft, reqT_some, ok_bind, h1]
  rw [viewsFor]
  have hbr2 : data_by_type ext g idx "coordinates"
      (esl.getD idx 0) (esl.getD (idx + 1) 0)
      ((sliceTable 0 nl).getD idx 0) (nl.getD idx 0) =
      pure (View.vtensor (sliceT g.coordinates ((sliceTable 0 nl).getD idx 0)
        ((sliceTable 0 nl).getD idx 0 + nl.getD idx 0))) := rfl
  rw [hbr2, h2]
  rfl

/- ### Claim C10: conformer padding -/
/-- Claim C10.  `process` pads every retained molecule to exactly 10
conformer position matrices (repeating the first conformer when fewer
exist) and concatenates them along the column dimension, so — with the
rdkit guarantee that each position matrix has 3 columns — every row of the
cached per-molecule coordinate block has exactly 30 entries, and taking the
first 3 columns recovers the first conformer; the constructor keeps exactly
those first 3 columns (`data_dict['coordinates'][:, :3]`). -/
theorem C10_conformer_padding (m : RawMol) (block : List (List Rat))
    (hw : ∀ c ∈ m.conformers, ∀ r ∈ c, r.length = 3)
    (hok : molCoords m = .ok block) :
    (padConformers (m.conformers.headD []) m.conformers).length = 10 ∧
    (∀ r ∈ block, r.length = 30) ∧
    block.map (fun r => r.take 3) = m.conformers.headD [] ∧
    (∀ a rts dd p, buildCore a rts dd = .ok p → ∃ ct,
      ddTensor dd "coordinates" = .ok ct ∧
      p.coordinates = Tensor.mk ct.dtype (ct.rows.map fun r => r.take 3)) := by
  cases hcs : m.conformers with
  | nil =>
    rw [molCoords, hcs] at hok
    simp only [List.head?_nil, liftOpt_none, error_bind] at hok
    simp at hok
  | cons c0 tl =>
    rw [molCoords, hcs] at hok
    simp only [List.head?_cons, liftOpt_some, ok_bind] at hok
    rw [hcs] at hw
    have hpadlen : (padConformers c0 (c0 :: tl)).length = 10 := by
      rw [padConformers]
      simp only [List.length_append, List.length_replicate, List.length_take]
      omega
    have hwpad : ∀ mat ∈ padConformers c0 (c0 :: tl), ∀ r ∈ mat, r.length = 3 := by
      intro mat hmat
      rw [padConformers, List.mem_append] at hmat
      rcases hmat with hmat | hmat
      · exact hw mat (List.take_subset 10 (c0 :: tl) hmat)
      · rw [List.mem_replicate] at hmat
        rw [hmat.2]
        exact hw c0 (by simp)
    refine ⟨?_, ?_, ?_, ?_⟩
    · simp only [List.headD_cons]
      exact hpadlen
    · intro r hr
      have := catColsM_width (padConformers c0 (c0 :: tl)) block 3 hok hwpad r hr
      rw [hpadlen] at this
      simpa using this
    · have hhead : (padConformers c0 (c0 :: tl)).headD [] = c0 := by
        rw [padConformers]
        simp [List.take_succ_cons]
      have := catColsM_take3 (padConformers c0 (c0 :: tl)) block hok
        (by rw [hhead]; intro x hx; exact hw c0 (by simp) x hx)
      rw [hhead] at this
      simpa using this
    · intro a rts dd p hbc
      obtain ⟨-, -, -, -, ⟨ct, hct, hpc, -⟩, -⟩ := buildCore_ok hbc
      exact ⟨ct, hct, hpc⟩

/-- Concrete instantiation of the C10 padding theorem on `m1` (one atom,
one conformer): its block is padded to 10 conformer copies, 30 columns. -/
theorem C10_conformer_padding_witness :
    (padConformers (m1.conformers.headD []) m1.conformers).length = 10 ∧
    (∀ r ∈ block10, r.length = 30) ∧
    block10.map (fun r => r.take 3) = m1.conformers.headD [] ∧
    (∀ a rts dd p, buildCore a rts dd = .ok p → ∃ ct,
      ddTensor dd "coordinates" = .ok ct ∧
      p.coordinates = Tensor.mk ct.dtype (ct.rows.map fun r => r.take 3)) :=
  C10_conformer_padding m1 block10 (by decide) (by rfl)

/-- Concrete instantiation of the C5 slicing theorem: on `g5`, item 1 is
exactly the second molecule's feature and coordinate blocks. -/
theorem C5_raw_features_coordinates_slices_witness :
    getitem ext0 g5 1 =
      .ok [.vtensor ⟨DType.tfloat, [[2], [3]]⟩,
           .vtensor ⟨DType.tfloat, [[8, 8, 8], [7, 7, 7]]⟩] :=
  C5_raw_features_coordinates_slices ext0 g5
    [[[1]], [[2], [3]]] [[[9, 9, 9]], [[8, 8, 8], [7, 7, 7]]] [1, 2] [0, 0, 0] 1
    ⟨.tfloat, [[1], [2], [3]]⟩
    rfl rfl rfl rfl rfl rfl rfl rfl rfl
    (by decide) (by decide) (by decide) (by decide)

/-- Concrete instantiation of the C7 feature-concatenation theorem on the
construction of `g7` from `dd7`. -/
theorem C7_feature_concatenation_witness :
    ∃ dd, augmentDD ext0 args7 dd7 = .ok dd ∧
      ((g7.features_tensor = none ↔ args7.features = []) ∧
        (args7.features ≠ [] → ∃ ts t,
          args7.features.mapM (fun k => ddTensor dd k) = .ok ts ∧
          catLast ts = .ok t ∧ g7.features_tensor = some t)) ∧
      ((g7.features3d_tensor = none ↔ args7.features3d = []) ∧
        (args7.features3d ≠ [] → ∃ ts t,
          args7.features3d.mapM (fun k => ddTensor dd k) = .ok ts ∧
          catLast ts = .ok t ∧ g7.features3d_tensor = some t)) ∧
      ((g7.e_features_tensor = none ↔ args7.e_features = []) ∧
        (args7.e_features ≠ [] → ∃ ts t,
          args7.e_features.mapM (fun k => ddTensor dd k) = .ok ts ∧
          catLast ts = .ok t ∧ g7.e_features_tensor = some t.toFloat)) ∧
      ((g7.e_features3d_tensor = none ↔ args7.e_features3d = []) ∧
        (args7.e_features3d ≠ [] → ∃ ts t,
          args7.e_features3d.mapM (fun k => ddTensor dd k) = .ok ts ∧
          catLast ts = .ok t ∧ g7.e_features3d_tensor = some t.toFloat)) ∧
      (∀ ts t, catLast ts = .ok t → ∀ j,
        t.rows.getD j [] = (ts.map fun u => u.rows.getD j []).flatten) :=
  C7_feature_concatenation ext0 args7 dd7 g7 (by rfl)

/-- Concrete instantiation of the C9 theorem: `mol_id` raises on an
arbitrary state, and `edge_indices` raises on the constructed `g9`. -/
theorem C9_accepted_but_unhandled_witness :
    isErr (data_by_type ext0 g4 0 "mol_id" 0 0 0 0) = true ∧
    isErr (data_by_type ext0 g9 0 "edge_indices" 0 0 0 0) = true :=
  ⟨(C9_accepted_but_unhandled.1 "mol_id" (by decide)).2 ext0 g4 0 0 0 0 0,
   C9_accepted_but_unhandled.2.2 ext0 args9 dd7 g9 (by rfl) 0 0 0 0 0⟩

end GEOMqm9

